import Mathlib

/-!
# tailflaredns: the reconciliation engine

A shallow embedding of `main.go` of `jamestelfer/tailflaredns`:

* `crud`, the three-way diff between the records currently stored under a DNS
  name and the records wanted there;
* `DNSManager.getZone` with its zone-id cache, `GetAddressesByName`,
  `UpdateAddressesByName`;
* the alias loop of `run`.

Go maps are association lists with pairwise distinct keys, compared by a
decidable equality (the program keys its maps by strings); the order in which
a `range` statement visits a map is not fixed by the language, so every loop
over a map takes a `RangeOrder` that may rearrange the entries arbitrarily.
The Cloudflare API is a set of oracles whose answers may depend on the
requests sent before, and every request is logged in the manager state.
-/

set_option autoImplicit false

namespace TailflareDNS

/-! ## Go maps -/

/-- A Go `map[K]V`: its entries, in order of first insertion. -/
abbrev GoMap (K V : Type) := List (K × V)

namespace GoMap

variable {K V : Type} [DecidableEq K]

/-- The assignment `m[k] = v`: overwrite the entry of `k`, or add one. -/
def set : GoMap K V → K → V → GoMap K V
  | [], k, v => [(k, v)]
  | (k', v') :: m, k, v => if k' = k then (k, v) :: m else (k', v') :: set m k v

/-- The lookup `v, ok := m[k]`. -/
def get? : GoMap K V → K → Option V
  | [], _ => none
  | (k', v') :: m, k => if k' = k then some v' else get? m k

end GoMap

/-- The order in which one `range` loop visits the entries of a map: any
rearrangement of the entries. -/
structure RangeOrder (α : Type) where
  order : List α → List α
  perm : ∀ l, (order l).Perm l

/-- Visit the entries in insertion order. -/
def RangeOrder.insertion (α : Type) : RangeOrder α :=
  ⟨fun l => l, fun l => List.Perm.refl l⟩

/-- Visit the entries in reverse insertion order. -/
def RangeOrder.reversed (α : Type) : RangeOrder α :=
  ⟨List.reverse, fun l => List.reverse_perm l⟩

/-! ## `crud` -/

/-- The three results of `crud`. -/
structure CrudResult (T : Type) where
  create : List T
  update : List T
  delete : List T
deriving DecidableEq, Repr

/-- The loop `for _, c := range l { m[keyFunc(c)] = c }` on an empty map. -/
def keyedSet {T K : Type} [DecidableEq K] (l : List T) (keyFunc : T → K) : GoMap K T :=
  l.foldl (fun m c => GoMap.set m (keyFunc c) c) []

/-- `crud(current, after, keyFunc)`; `rangeAfter` and `rangeExisting` are the
orders in which the two `range` loops visit `afterSet` and `existingSet`. -/
def crud {T K : Type} [DecidableEq K] (rangeAfter rangeExisting : RangeOrder (K × T))
    (current after : List T) (keyFunc : T → K) : CrudResult T :=
  -- create a set of existing records
  let existingSet := keyedSet current keyFunc
  -- create the set of "after" records
  let afterSet := keyedSet after keyFunc
  -- find records to create or update
  let create := (rangeAfter.order afterSet).foldl
    (fun create kv =>
      if (GoMap.get? existingSet kv.1).isSome then create else create ++ [kv.2]) []
  -- find records to delete or update
  let ud := (rangeExisting.order existingSet).foldl
    (fun (ud : List T × List T) kv =>
      if (GoMap.get? afterSet kv.1).isSome then (ud.1 ++ [kv.2], ud.2)
      else (ud.1, ud.2 ++ [kv.2])) ([], [])
  ⟨create, ud.1, ud.2⟩

/-- The last record of `l` whose key is `k`, if there is one. -/
def lastWithKey {T K : Type} [DecidableEq K] (keyFunc : T → K) (l : List T) (k : K) : Option T :=
  (l.filter (fun x => decide (keyFunc x = k))).getLast?

/-! ## Records, errors and the remote API -/

/-- The record type of `main.go`. -/
structure ARecord where
  Id : String
  Address : String
  TailscaleName : String
deriving DecidableEq, Repr

/-- A Go `error` value that is not nil. `leaf` is an error made outside this
program (by an API client); `errorf format args cause` is
`fmt.Errorf(format, args..., cause)` with `cause` the operand of the `%w` verb
(`none` when that operand is nil or the format has no `%w`); `join errs` is
`errors.Join(errs...)`. -/
inductive GoError where
  | leaf (text : String)
  | errorf (format : String) (args : List String) (cause : Option GoError)
  | join (errs : List GoError)

/-- The errors a returned `error` value stands for: none for nil, the joined
errors for an `errors.Join`, the error itself otherwise. -/
def GoError.joined : Option GoError → List GoError
  | none => []
  | some (.join errs) => errs
  | some e => [e]

/-- The fields of a `dns.RecordResponse` that the program reads. -/
structure RecordResponse where
  ID : String
  Content : String
  Name : String
deriving DecidableEq, Repr

/-- A `dns.ARecordParam` as the program fills it; the record type is always A. -/
structure ARecordParam where
  Name : Option String
  Content : Option String
  Comment : Option String
  TTL : Nat
  Proxied : Bool
deriving DecidableEq, Repr

/-- A `dns.BatchPatchAParam`. -/
structure BatchPatchAParam where
  ID : String
  ARecordParam : ARecordParam
deriving DecidableEq, Repr

/-- A `dns.RecordBatchParamsDelete`. -/
structure RecordBatchParamsDelete where
  ID : String
deriving DecidableEq, Repr

/-- A `dns.RecordBatchParams`. -/
structure RecordBatchParams where
  ZoneID : String
  Posts : List ARecordParam
  Patches : List BatchPatchAParam
  Deletes : List RecordBatchParamsDelete
deriving DecidableEq, Repr

/-- A request sent through the Cloudflare client. -/
inductive Call where
  | zonesList (name : String)
  | recordsList (zoneID : String) (name : String)
  | recordsBatch (batch : RecordBatchParams)
deriving DecidableEq, Repr

/-- The remote API as oracles. Each answer may depend on the requests sent
before it (oldest first), so the remote side may change between requests.
`zonesList` answers `Zones.List` with the ids of the matching zones;
`recordsList` answers `DNS.Records.ListAutoPaging` with the records the pager
yields and the value of `pager.Err()` afterwards; `recordsBatch` answers
`DNS.Records.Batch` with its error. -/
structure Cloudflare where
  zonesList : List Call → String → Except GoError (List String)
  recordsList : List Call → String → String → List RecordResponse × Option GoError
  recordsBatch : List Call → RecordBatchParams → Option GoError

/-- The state of a `*DNSManager`: the zone name, the cached zone id and the
requests its client has sent so far. -/
structure DNSManager where
  zoneName : String
  zoneID : Option String
  calls : List Call
deriving DecidableEq, Repr

/-- The constructor `NewDNSManager(zoneName)`. -/
def NewDNSManager (zoneName : String) : DNSManager :=
  { zoneName := zoneName, zoneID := none, calls := [] }

/-- The helper `seq.SelectSlice`. -/
def SelectSlice {E F : Type} (slice : List E) (transformer : E → F) : List F :=
  slice.map transformer

/-- The method `(*DNSManager).getZone`. -/
def DNSManager.getZone (cf : Cloudflare) (d : DNSManager) : Except GoError String × DNSManager :=
  match d.zoneID with
  | some zoneID => (.ok zoneID, d)
  | none =>
    let d1 := { d with calls := d.calls ++ [Call.zonesList d.zoneName] }
    match cf.zonesList d.calls d.zoneName with
    | .error err => (.error (.errorf "zone lookup for name %s failed: %w" [d.zoneName] (some err)), d1)
    | .ok [] => (.error (.errorf "zone %s not found" [d.zoneName] none), d1)
    | .ok (zoneID :: _) =>
      -- cache the zone ID for future use
      (.ok zoneID, { d1 with zoneID := some zoneID })

/-- The method `(*DNSManager).GetAddressesByName`. -/
def DNSManager.GetAddressesByName (cf : Cloudflare) (d : DNSManager) (name : String) :
    Except GoError (List ARecord) × DNSManager :=
  match d.getZone cf with
  | (.error err, d1) => (.error err, d1)
  | (.ok zoneID, d1) =>
    let d2 := { d1 with calls := d1.calls ++ [Call.recordsList zoneID name] }
    let pager := cf.recordsList d1.calls zoneID name
    let addresses := pager.1.map fun record =>
      ({ Id := record.ID, Address := record.Content, TailscaleName := record.Name } : ARecord)
    match pager.2 with
    | some err => (.error (.errorf "failed to list records for name %s: %w" [name] (some err)), d2)
    | none => (.ok addresses, d2)

/-- The orders of the `range` loops over maps met during one run. -/
structure Ranges where
  aliases : RangeOrder (String × List String)
  afterSet : RangeOrder (String × ARecord)
  existingSet : RangeOrder (String × ARecord)

/-- The batch that `UpdateAddressesByName` builds from the results of `crud`. -/
def batchParams (zoneID name : String) (r : CrudResult ARecord) : RecordBatchParams :=
  { ZoneID := zoneID
    Posts := SelectSlice r.create fun a =>
      { Name := some name
        Content := some a.Address
        Comment := some ("Address of Tailscale server \x27" ++ a.TailscaleName ++ "\x27")
        TTL := 1
        Proxied := false }
    Patches := SelectSlice r.update fun a =>
      { ID := a.Id
        ARecordParam := { Name := none, Content := none, Comment := none, TTL := 1, Proxied := false } }
    Deletes := SelectSlice r.delete fun a => { ID := a.Id } }

/-- The method `(*DNSManager).UpdateAddressesByName`. -/
def DNSManager.UpdateAddressesByName (cf : Cloudflare) (rg : Ranges) (d : DNSManager)
    (name : String) (addresses : List ARecord) : Option GoError × DNSManager :=
  match d.getZone cf with
  | (.error err, d1) => (some err, d1)
  | (.ok zoneID, d1) =>
    -- get the set of currentAddresses records for this name
    match d1.GetAddressesByName cf name with
    | (.error err, d2) =>
      (some (.errorf "failed to get current addresses for name %s: %w" [name] (some err)), d2)
    | (.ok currentAddresses, d2) =>
      let r := crud rg.afterSet rg.existingSet currentAddresses addresses fun a => a.Address
      let batch := batchParams zoneID name r
      (cf.recordsBatch d2.calls batch, { d2 with calls := d2.calls ++ [Call.recordsBatch batch] })

/-- The function `updateCloudflareRecord`. -/
def updateCloudflareRecord (cf : Cloudflare) (rg : Ranges) (mgr : DNSManager) (aliasName : String)
    (addresses : List ARecord) : Option GoError × DNSManager :=
  match mgr.UpdateAddressesByName cf rg aliasName addresses with
  | (some err, mgr1) =>
    (some (.errorf "failed to update records for alias %s: %w" [aliasName] (some err)), mgr1)
  | (none, mgr1) => (none, mgr1)

/-! ## `run` -/

/-- The type `Config`. -/
structure Config where
  ZoneName : String
  Aliases : GoMap String (List String)

/-- The `slog.Info` events of `run`. -/
inductive LogEvent where
  | updatingAlias (aliasName : String) (servers : List ARecord)
  | aliasUpdateComplete (successful : Nat) (failed : Nat)
deriving DecidableEq, Repr

/-- The local variables of `run` during the loop over the aliases, and the
events logged so far. -/
structure RunState where
  failures : List GoError
  successful : Nat
  failed : Nat
  mgr : DNSManager
  log : List LogEvent

/-- The inner loop of `run` over the server names of one alias: the records
found and the failures so far. -/
def resolveServers (devices : GoMap String ARecord) (aliasName : String) (servers : List String)
    (failures : List GoError) : List ARecord × List GoError :=
  servers.foldl
    (fun (acc : List ARecord × List GoError) serverName =>
      match GoMap.get? devices serverName with
      | none =>
        -- treat this as a failure but non fatal
        (acc.1, acc.2 ++ [GoError.errorf "(alias %s) Tailscale server \x27%s\x27 not found: %w"
          [aliasName, serverName] none])
      | some record => (acc.1 ++ [record], acc.2))
    ([], failures)

/-- One iteration of the loop of `run` over `cfg.Aliases`. -/
def runAlias (cf : Cloudflare) (rg : Ranges) (devices : GoMap String ARecord) (st : RunState)
    (entry : String × List String) : RunState :=
  let aliasName := entry.1
  let resolved := resolveServers devices aliasName entry.2 st.failures
  let log := st.log ++ [LogEvent.updatingAlias aliasName resolved.1]
  match updateCloudflareRecord cf rg st.mgr aliasName resolved.1 with
  | (some err, mgr) =>
    { failures := resolved.2 ++
        [GoError.errorf "(alias %s) failed to update Cloudflare record: %w" [aliasName] (some err)]
      successful := st.successful
      failed := st.failed + 1
      mgr := mgr
      log := log }
  | (none, mgr) =>
    { failures := resolved.2
      successful := st.successful + 1
      failed := st.failed
      mgr := mgr
      log := log }

/-- What a call of `run` leaves behind: the returned error, the two counters
it logs, the events logged and the requests sent to the remote API. -/
structure RunOutcome where
  err : Option GoError
  successful : Nat
  failed : Nat
  log : List LogEvent
  calls : List Call

/-- The function `run`; `parseConfig` and `getTailscaleDevices` are the
results of its two first calls. -/
def run (cf : Cloudflare) (rg : Ranges) (parseConfig : Except GoError Config)
    (getTailscaleDevices : Except GoError (GoMap String ARecord)) : RunOutcome :=
  match parseConfig with
  | .error err => { err := some err, successful := 0, failed := 0, log := [], calls := [] }
  | .ok cfg =>
    match getTailscaleDevices with
    | .error err =>
      { err := some (.errorf "failed to get Tailscale devices: %w" [] (some err))
        successful := 0, failed := 0, log := [], calls := [] }
    | .ok devices =>
      let st := (rg.aliases.order cfg.Aliases).foldl (runAlias cf rg devices)
        { failures := [], successful := 0, failed := 0, mgr := NewDNSManager cfg.ZoneName, log := [] }
      { err := if st.failures.isEmpty then none else some (.join st.failures)
        successful := st.successful
        failed := st.failed
        log := st.log ++ [LogEvent.aliasUpdateComplete st.successful st.failed]
        calls := st.mgr.calls }

/-- The aliases named by the "Updating alias" events of a log, in order. -/
def attempted : List LogEvent → List String
  | [] => []
  | .updatingAlias aliasName _ :: log => aliasName :: attempted log
  | .aliasUpdateComplete _ _ :: log => attempted log

/-- Whether an error is the one `run` records when the update of an alias fails. -/
def GoError.isUpdateFailure : GoError → Bool
  | .errorf "(alias %s) failed to update Cloudflare record: %w" [_] (some _) => true
  | _ => false

/-- Whether an error is the one `run` records for a server name that is not in
the device directory. -/
def GoError.isServerNotFound : GoError → Bool
  | .errorf "(alias %s) Tailscale server \x27%s\x27 not found: %w" [_, _] none => true
  | _ => false

/-- The server names of an alias that are not in the device directory. -/
def missingServers (devices : GoMap String ARecord) (servers : List String) : List String :=
  servers.filter fun serverName => (GoMap.get? devices serverName).isNone

/-- The errors `run` records for the missing server names of an alias. -/
def notFoundErrors (devices : GoMap String ARecord) (aliasName : String)
    (servers : List String) : List GoError :=
  (missingServers devices servers).map fun serverName =>
    GoError.errorf "(alias %s) Tailscale server \x27%s\x27 not found: %w" [aliasName, serverName] none

/-- The error `run` records for an alias whose update failed because the zone
lookup found no zone. -/
def zoneNotFoundFailure (zoneName aliasName : String) : GoError :=
  .errorf "(alias %s) failed to update Cloudflare record: %w" [aliasName]
    (some (.errorf "failed to update records for alias %s: %w" [aliasName]
      (some (.errorf "zone %s not found" [zoneName] none))))

/-- The states a manager can be in after further method calls: `Later d d2`
when `d2` is reached from `d` by any number of calls of `getZone`,
`GetAddressesByName` and `UpdateAddressesByName`, each with any arguments and
against any answers of the remote API. -/
inductive DNSManager.Later : DNSManager → DNSManager → Prop where
  | same (d : DNSManager) : DNSManager.Later d d
  | getZone {d d1 : DNSManager} (cf : Cloudflare) :
      DNSManager.Later d d1 → DNSManager.Later d (d1.getZone cf).2
  | getAddresses {d d1 : DNSManager} (cf : Cloudflare) (name : String) :
      DNSManager.Later d d1 → DNSManager.Later d (d1.GetAddressesByName cf name).2
  | updateAddresses {d d1 : DNSManager} (cf : Cloudflare) (rg : Ranges) (name : String)
      (addresses : List ARecord) :
      DNSManager.Later d d1 → DNSManager.Later d (d1.UpdateAddressesByName cf rg name addresses).2

/-- What the loop of `run` meets at one alias: the alias and its server names,
the manager state when the alias is reached, and the error returned by
`updateCloudflareRecord` for it (`none` when the update succeeded). -/
structure AliasOutcome where
  aliasName : String
  servers : List String
  mgr : DNSManager
  updateErr : Option GoError

/-- The outcomes of the aliases in the order the loop visits them: each alias
is updated with the records of its server names found in the directory, from
the manager state the update of the alias before it left behind. -/
def aliasOutcomes (cf : Cloudflare) (rg : Ranges) (devices : GoMap String ARecord) :
    DNSManager → List (String × List String) → List AliasOutcome
  | _, [] => []
  | mgr, entry :: entries =>
    { aliasName := entry.1
      servers := entry.2
      mgr := mgr
      updateErr := (updateCloudflareRecord cf rg mgr entry.1
        (entry.2.filterMap (GoMap.get? devices))).1 } ::
    aliasOutcomes cf rg devices
      (updateCloudflareRecord cf rg mgr entry.1 (entry.2.filterMap (GoMap.get? devices))).2 entries

/-- The failures one alias contributes to the error of `run`: one for each
missing server name, then the update failure if the update failed. -/
def AliasOutcome.failures (devices : GoMap String ARecord) (o : AliasOutcome) : List GoError :=
  notFoundErrors devices o.aliasName o.servers ++
    match o.updateErr with
    | some err =>
      [GoError.errorf "(alias %s) failed to update Cloudflare record: %w" [o.aliasName] (some err)]
    | none => []

/-! ## Go maps: entries and keys -/

namespace GoMap

variable {K V : Type} [DecidableEq K]

theorem keys_set (m : GoMap K V) (k : K) (v : V) :
    (set m k v).map Prod.fst = if k ∈ m.map Prod.fst then m.map Prod.fst else m.map Prod.fst ++ [k] := by
  induction m with
  | nil => simp [set]
  | cons p m ih =>
    obtain ⟨k', v'⟩ := p
    by_cases h : k' = k
    · subst h
      simp [set]
    · have h' : ¬ k = k' := fun e => h e.symm
      simp only [set, if_neg h, List.map_cons, List.mem_cons, h', false_or, ih]
      split <;> simp

theorem set_of_not_mem (m : GoMap K V) (k : K) (v : V) (h : k ∉ m.map Prod.fst) :
    set m k v = m ++ [(k, v)] := by
  induction m with
  | nil => simp [set]
  | cons p m ih =>
    obtain ⟨k', v'⟩ := p
    simp only [List.map_cons, List.mem_cons, not_or] at h
    have h' : ¬ k' = k := fun e => h.1 e.symm
    simp [set, if_neg h', ih h.2]

theorem mem_keys_set (m : GoMap K V) (k : K) (v : V) (j : K) :
    j ∈ (set m k v).map Prod.fst ↔ j = k ∨ j ∈ m.map Prod.fst := by
  rw [keys_set]
  split
  · constructor
    · exact fun h => Or.inr h
    · rintro (h | h)
      · subst h; assumption
      · exact h
  · simp [or_comm]

theorem nodup_keys_set (m : GoMap K V) (k : K) (v : V) (h : (m.map Prod.fst).Nodup) :
    ((set m k v).map Prod.fst).Nodup := by
  rw [keys_set]
  split
  · exact h
  · rename_i hk
    exact List.Nodup.append h (List.nodup_singleton k) (by simpa using hk)

theorem mem_set (m : GoMap K V) (k : K) (v : V) (h : (m.map Prod.fst).Nodup) (p : K × V) :
    p ∈ set m k v ↔ p = (k, v) ∨ (p ∈ m ∧ p.1 ≠ k) := by
  induction m with
  | nil => simp [set]
  | cons q m ih =>
    obtain ⟨k', v'⟩ := q
    simp only [List.map_cons, List.nodup_cons] at h
    by_cases hk : k' = k
    · subst hk
      simp only [set, if_true, List.mem_cons]
      constructor
      · rintro (e | e)
        · exact Or.inl e
        · refine Or.inr ⟨Or.inr e, ?_⟩
          intro hp
          exact h.1 (hp ▸ List.mem_map_of_mem Prod.fst e)
      · rintro (e | ⟨e | e, hp⟩)
        · exact Or.inl e
        · exact absurd (by rw [e]) hp
        · exact Or.inr e
    · simp only [set, if_neg hk, List.mem_cons, ih h.2]
      constructor
      · rintro (e | e | ⟨e, hp⟩)
        · exact Or.inr ⟨Or.inl e, by rw [e]; exact hk⟩
        · exact Or.inl e
        · exact Or.inr ⟨Or.inr e, hp⟩
      · rintro (e | ⟨e | e, hp⟩)
        · exact Or.inr (Or.inl e)
        · exact Or.inl e
        · exact Or.inr (Or.inr ⟨e, hp⟩)

theorem isSome_get? (m : GoMap K V) (k : K) :
    (get? m k).isSome = decide (k ∈ m.map Prod.fst) := by
  induction m with
  | nil => simp [get?]
  | cons q m ih =>
    obtain ⟨k', v'⟩ := q
    by_cases hk : k' = k
    · subst hk; simp [get?]
    · have h' : ¬ k = k' := fun e => hk e.symm
      simp [get?, if_neg hk, ih, h']

end GoMap

/-! ## The keyed sets built by `crud` -/

section keyed

variable {T K : Type} [DecidableEq K]

theorem keyedSet_concat (l : List T) (c : T) (keyFunc : T → K) :
    keyedSet (l ++ [c]) keyFunc = GoMap.set (keyedSet l keyFunc) (keyFunc c) c := by
  simp [keyedSet, List.foldl_append]

theorem lastWithKey_concat (keyFunc : T → K) (l : List T) (c : T) (k : K) :
    lastWithKey keyFunc (l ++ [c]) k = if keyFunc c = k then some c else lastWithKey keyFunc l k := by
  unfold lastWithKey
  by_cases h : keyFunc c = k
  · simp [List.filter_append, h]
  · simp [List.filter_append, h]

theorem lastWithKey_isSome (keyFunc : T → K) (l : List T) (k : K) :
    (lastWithKey keyFunc l k).isSome ↔ k ∈ l.map keyFunc := by
  induction l using List.reverseRecOn with
  | nil => simp [lastWithKey]
  | append_singleton l c ih =>
    rw [lastWithKey_concat]
    by_cases h : keyFunc c = k
    · simp [h]
    · have h' : ¬ k = keyFunc c := fun e => h e.symm
      simp [h, ih, h']

theorem lastWithKey_key (keyFunc : T → K) (l : List T) (k : K) (x : T)
    (h : lastWithKey keyFunc l k = some x) : keyFunc x = k ∧ x ∈ l := by
  have hm : x ∈ l.filter (fun y => decide (keyFunc y = k)) := List.mem_of_getLast?_eq_some h
  rw [List.mem_filter] at hm
  exact ⟨by simpa using hm.2, hm.1⟩

theorem mem_keys_keyedSet (l : List T) (keyFunc : T → K) (k : K) :
    k ∈ (keyedSet l keyFunc).map Prod.fst ↔ k ∈ l.map keyFunc := by
  induction l using List.reverseRecOn with
  | nil => simp [keyedSet]
  | append_singleton l c ih =>
    rw [keyedSet_concat, GoMap.mem_keys_set, ih]
    simp [or_comm]

theorem nodup_keys_keyedSet (l : List T) (keyFunc : T → K) :
    ((keyedSet l keyFunc).map Prod.fst).Nodup := by
  induction l using List.reverseRecOn with
  | nil => simp [keyedSet]
  | append_singleton l c ih =>
    rw [keyedSet_concat]
    exact GoMap.nodup_keys_set _ _ _ ih

theorem mem_keyedSet (l : List T) (keyFunc : T → K) (p : K × T) :
    p ∈ keyedSet l keyFunc ↔ lastWithKey keyFunc l p.1 = some p.2 := by
  induction l using List.reverseRecOn with
  | nil => simp [keyedSet, lastWithKey]
  | append_singleton l c ih =>
    rw [keyedSet_concat, GoMap.mem_set _ _ _ (nodup_keys_keyedSet l keyFunc), lastWithKey_concat, ih]
    obtain ⟨k, v⟩ := p
    by_cases h : keyFunc c = k
    · subst h
      simp only [if_true, Option.some.injEq, Prod.mk.injEq, ne_eq, not_true, and_false, or_false]
      constructor
      · rintro ⟨-, e⟩; exact e.symm
      · intro e; exact ⟨trivial, e.symm⟩
    · have h' : ¬ k = keyFunc c := fun e => h e.symm
      simp [h, h']

theorem key_of_mem_keyedSet (l : List T) (keyFunc : T → K) (p : K × T)
    (h : p ∈ keyedSet l keyFunc) : keyFunc p.2 = p.1 :=
  (lastWithKey_key keyFunc l p.1 p.2 ((mem_keyedSet l keyFunc p).1 h)).1

theorem keys_keyedSet (l : List T) (keyFunc : T → K) :
    (keyedSet l keyFunc).map Prod.fst = (keyedSet l keyFunc).map (fun p => keyFunc p.2) :=
  List.map_congr_left fun p hp => (key_of_mem_keyedSet l keyFunc p hp).symm

theorem keyedSet_of_nodup (l : List T) (keyFunc : T → K) (h : (l.map keyFunc).Nodup) :
    keyedSet l keyFunc = l.map fun c => (keyFunc c, c) := by
  induction l using List.reverseRecOn with
  | nil => simp [keyedSet]
  | append_singleton l c ih =>
    rw [List.map_append, List.nodup_append] at h
    have hc : keyFunc c ∉ (keyedSet l keyFunc).map Prod.fst := by
      rw [mem_keys_keyedSet]
      intro hm
      exact h.2.2 hm (by simp)
    rw [keyedSet_concat, GoMap.set_of_not_mem _ _ _ hc, ih h.1]
    simp

end keyed

/-! ## The three lists of `crud` as filters of the keyed sets -/

theorem foldl_create {T K : Type} (c : K × T → Bool) (l : List (K × T)) (init : List T) :
    l.foldl (fun create kv => if c kv then create else create ++ [kv.2]) init
      = init ++ (l.filter fun kv => !c kv).map Prod.snd := by
  induction l generalizing init with
  | nil => simp
  | cons kv l ih =>
    rw [List.foldl_cons, ih]
    cases h : c kv <;> simp [h]

theorem foldl_update_delete {T K : Type} (c : K × T → Bool) (l : List (K × T)) (init : List T × List T) :
    l.foldl (fun (ud : List T × List T) kv =>
        if c kv then (ud.1 ++ [kv.2], ud.2) else (ud.1, ud.2 ++ [kv.2])) init
      = (init.1 ++ (l.filter c).map Prod.snd, init.2 ++ (l.filter fun kv => !c kv).map Prod.snd) := by
  induction l generalizing init with
  | nil => simp
  | cons kv l ih =>
    rw [List.foldl_cons, ih]
    cases h : c kv <;> simp [h]

section crudLemmas

variable {T K : Type} [DecidableEq K]

theorem crud_create_eq (ra re : RangeOrder (K × T)) (current after : List T) (keyFunc : T → K) :
    (crud ra re current after keyFunc).create
      = ((ra.order (keyedSet after keyFunc)).filter
          fun kv => !decide (kv.1 ∈ current.map keyFunc)).map Prod.snd := by
  simp only [crud, foldl_create, List.nil_append, GoMap.isSome_get?, mem_keys_keyedSet]

theorem crud_update_eq (ra re : RangeOrder (K × T)) (current after : List T) (keyFunc : T → K) :
    (crud ra re current after keyFunc).update
      = ((re.order (keyedSet current keyFunc)).filter
          fun kv => decide (kv.1 ∈ after.map keyFunc)).map Prod.snd := by
  simp only [crud, foldl_update_delete, List.nil_append, GoMap.isSome_get?, mem_keys_keyedSet]

theorem crud_delete_eq (ra re : RangeOrder (K × T)) (current after : List T) (keyFunc : T → K) :
    (crud ra re current after keyFunc).delete
      = ((re.order (keyedSet current keyFunc)).filter
          fun kv => !decide (kv.1 ∈ after.map keyFunc)).map Prod.snd := by
  simp only [crud, foldl_update_delete, List.nil_append, GoMap.isSome_get?, mem_keys_keyedSet]

theorem crud_create_perm (ra re : RangeOrder (K × T)) (current after : List T) (keyFunc : T → K) :
    (crud ra re current after keyFunc).create.Perm
      (((keyedSet after keyFunc).filter
          fun kv => !decide (kv.1 ∈ current.map keyFunc)).map Prod.snd) := by
  rw [crud_create_eq]
  exact ((ra.perm _).filter _).map _

theorem crud_update_perm (ra re : RangeOrder (K × T)) (current after : List T) (keyFunc : T → K) :
    (crud ra re current after keyFunc).update.Perm
      (((keyedSet current keyFunc).filter
          fun kv => decide (kv.1 ∈ after.map keyFunc)).map Prod.snd) := by
  rw [crud_update_eq]
  exact ((re.perm _).filter _).map _

theorem crud_delete_perm (ra re : RangeOrder (K × T)) (current after : List T) (keyFunc : T → K) :
    (crud ra re current after keyFunc).delete.Perm
      (((keyedSet current keyFunc).filter
          fun kv => !decide (kv.1 ∈ after.map keyFunc)).map Prod.snd) := by
  rw [crud_delete_eq]
  exact ((re.perm _).filter _).map _

/-- Reading the keys off the records of a filtered keyed set gives the
filtered keys of the set. -/
theorem keys_filter_keyedSet (l : List T) (keyFunc : T → K) (c : K → Bool) :
    (((keyedSet l keyFunc).filter fun kv => c kv.1).map Prod.snd).map keyFunc
      = ((keyedSet l keyFunc).map Prod.fst).filter c := by
  rw [List.map_map, List.filter_map]
  apply List.map_congr_left
  intro p hp
  exact key_of_mem_keyedSet l keyFunc p (List.mem_of_mem_filter hp)

theorem crud_create_keys_perm (ra re : RangeOrder (K × T)) (current after : List T)
    (keyFunc : T → K) :
    ((crud ra re current after keyFunc).create.map keyFunc).Perm
      (((keyedSet after keyFunc).map Prod.fst).filter
        fun k => !decide (k ∈ current.map keyFunc)) := by
  rw [← keys_filter_keyedSet after keyFunc fun k => !decide (k ∈ current.map keyFunc)]
  exact (crud_create_perm ra re current after keyFunc).map keyFunc

theorem crud_update_keys_perm (ra re : RangeOrder (K × T)) (current after : List T)
    (keyFunc : T → K) :
    ((crud ra re current after keyFunc).update.map keyFunc).Perm
      (((keyedSet current keyFunc).map Prod.fst).filter
        fun k => decide (k ∈ after.map keyFunc)) := by
  rw [← keys_filter_keyedSet current keyFunc fun k => decide (k ∈ after.map keyFunc)]
  exact (crud_update_perm ra re current after keyFunc).map keyFunc

theorem crud_delete_keys_perm (ra re : RangeOrder (K × T)) (current after : List T)
    (keyFunc : T → K) :
    ((crud ra re current after keyFunc).delete.map keyFunc).Perm
      (((keyedSet current keyFunc).map Prod.fst).filter
        fun k => !decide (k ∈ after.map keyFunc)) := by
  rw [← keys_filter_keyedSet current keyFunc fun k => !decide (k ∈ after.map keyFunc)]
  exact (crud_delete_perm ra re current after keyFunc).map keyFunc

/-- The keys of `update ++ delete` are the keys of `current`, each once. -/
theorem crud_update_delete_keys_perm (ra re : RangeOrder (K × T)) (current after : List T)
    (keyFunc : T → K) :
    (((crud ra re current after keyFunc).update ++ (crud ra re current after keyFunc).delete).map
      keyFunc).Perm ((keyedSet current keyFunc).map Prod.fst) := by
  rw [List.map_append]
  exact ((crud_update_keys_perm ra re current after keyFunc).append
    (crud_delete_keys_perm ra re current after keyFunc)).trans
    (List.filter_append_perm _ _)

theorem mem_crud_create (ra re : RangeOrder (K × T)) (current after : List T) (keyFunc : T → K)
    (x : T) :
    x ∈ (crud ra re current after keyFunc).create ↔
      lastWithKey keyFunc after (keyFunc x) = some x ∧ keyFunc x ∉ current.map keyFunc := by
  rw [(crud_create_perm ra re current after keyFunc).mem_iff, List.mem_map]
  constructor
  · rintro ⟨p, hp, rfl⟩
    rw [List.mem_filter] at hp
    have hk := key_of_mem_keyedSet after keyFunc p hp.1
    rw [hk]
    exact ⟨(mem_keyedSet after keyFunc p).1 hp.1, by simpa using hp.2⟩
  · rintro ⟨h1, h2⟩
    refine ⟨(keyFunc x, x), ?_, rfl⟩
    rw [List.mem_filter]
    exact ⟨(mem_keyedSet after keyFunc (keyFunc x, x)).2 h1, by simpa using h2⟩

theorem mem_crud_update (ra re : RangeOrder (K × T)) (current after : List T) (keyFunc : T → K)
    (x : T) :
    x ∈ (crud ra re current after keyFunc).update ↔
      lastWithKey keyFunc current (keyFunc x) = some x ∧ keyFunc x ∈ after.map keyFunc := by
  rw [(crud_update_perm ra re current after keyFunc).mem_iff, List.mem_map]
  constructor
  · rintro ⟨p, hp, rfl⟩
    rw [List.mem_filter] at hp
    have hk := key_of_mem_keyedSet current keyFunc p hp.1
    rw [hk]
    exact ⟨(mem_keyedSet current keyFunc p).1 hp.1, by simpa using hp.2⟩
  · rintro ⟨h1, h2⟩
    refine ⟨(keyFunc x, x), ?_, rfl⟩
    rw [List.mem_filter]
    exact ⟨(mem_keyedSet current keyFunc (keyFunc x, x)).2 h1, by simpa using h2⟩

theorem mem_crud_delete (ra re : RangeOrder (K × T)) (current after : List T) (keyFunc : T → K)
    (x : T) :
    x ∈ (crud ra re current after keyFunc).delete ↔
      lastWithKey keyFunc current (keyFunc x) = some x ∧ keyFunc x ∉ after.map keyFunc := by
  rw [(crud_delete_perm ra re current after keyFunc).mem_iff, List.mem_map]
  constructor
  · rintro ⟨p, hp, rfl⟩
    rw [List.mem_filter] at hp
    have hk := key_of_mem_keyedSet current keyFunc p hp.1
    rw [hk]
    exact ⟨(mem_keyedSet current keyFunc p).1 hp.1, by simpa using hp.2⟩
  · rintro ⟨h1, h2⟩
    refine ⟨(keyFunc x, x), ?_, rfl⟩
    rw [List.mem_filter]
    exact ⟨(mem_keyedSet current keyFunc (keyFunc x, x)).2 h1, by simpa using h2⟩

/-- With keys unique in `l`, filtering the keyed set by key filters `l`. -/
theorem filter_keyedSet_of_nodup (l : List T) (keyFunc : T → K) (c : K → Bool)
    (h : (l.map keyFunc).Nodup) :
    ((keyedSet l keyFunc).filter fun kv => c kv.1).map Prod.snd = l.filter fun x => c (keyFunc x) := by
  rw [keyedSet_of_nodup l keyFunc h, List.filter_map, List.map_map]
  have : (Prod.snd ∘ fun x => (keyFunc x, x)) = (id : T → T) := rfl
  rw [this, List.map_id]
  rfl

end crudLemmas

/-! ## The zone cache and the alias loop -/

theorem getZone_of_cached (cf : Cloudflare) (d : DNSManager) (zoneID : String)
    (h : d.zoneID = some zoneID) : d.getZone cf = (.ok zoneID, d) := by
  simp [DNSManager.getZone, h]

theorem attempted_append (log : List LogEvent) (aliasName : String) (servers : List ARecord) :
    attempted (log ++ [LogEvent.updatingAlias aliasName servers]) = attempted log ++ [aliasName] := by
  induction log with
  | nil => rfl
  | cons ev log ih =>
    cases ev <;> simp [attempted, ih]

theorem attempted_append_complete (log : List LogEvent) (s f : Nat) :
    attempted (log ++ [LogEvent.aliasUpdateComplete s f]) = attempted log := by
  induction log with
  | nil => rfl
  | cons ev log ih =>
    cases ev <;> simp [attempted, ih]

theorem resolveServers_eq (devices : GoMap String ARecord) (aliasName : String)
    (servers : List String) (failures : List GoError) :
    resolveServers devices aliasName servers failures
      = (servers.filterMap (GoMap.get? devices),
          failures ++ notFoundErrors devices aliasName servers) := by
  have key : ∀ (acc : List ARecord × List GoError),
      servers.foldl
        (fun (acc : List ARecord × List GoError) serverName =>
          match GoMap.get? devices serverName with
          | none =>
            (acc.1, acc.2 ++ [GoError.errorf "(alias %s) Tailscale server \x27%s\x27 not found: %w"
              [aliasName, serverName] none])
          | some record => (acc.1 ++ [record], acc.2)) acc
        = (acc.1 ++ servers.filterMap (GoMap.get? devices),
            acc.2 ++ notFoundErrors devices aliasName servers) := by
    induction servers with
    | nil => intro acc; simp [notFoundErrors, missingServers]
    | cons s servers ih =>
      intro acc
      rw [List.foldl_cons, ih]
      cases h : GoMap.get? devices s <;>
        simp [notFoundErrors, missingServers, h, List.filterMap_cons]
  simpa [resolveServers] using key ([], failures)

theorem isServerNotFound_of_mem_notFoundErrors (devices : GoMap String ARecord)
    (aliasName : String) (servers : List String) (e : GoError)
    (h : e ∈ notFoundErrors devices aliasName servers) :
    e.isServerNotFound = true ∧ e.isUpdateFailure = false := by
  obtain ⟨s, -, rfl⟩ := List.mem_map.1 h
  exact ⟨rfl, rfl⟩

theorem length_notFoundErrors (devices : GoMap String ARecord) (aliasName : String)
    (servers : List String) :
    (notFoundErrors devices aliasName servers).length = (missingServers devices servers).length := by
  simp [notFoundErrors]

theorem filter_notFoundErrors (devices : GoMap String ARecord) (aliasName : String)
    (servers : List String) :
    (notFoundErrors devices aliasName servers).filter GoError.isServerNotFound
        = notFoundErrors devices aliasName servers ∧
    (notFoundErrors devices aliasName servers).filter GoError.isUpdateFailure = [] := by
  constructor
  · exact List.filter_eq_self.2 fun e he =>
      (isServerNotFound_of_mem_notFoundErrors devices aliasName servers e he).1
  · apply List.filter_eq_nil_iff.2
    intro e he
    simp [(isServerNotFound_of_mem_notFoundErrors devices aliasName servers e he).2]

/-- One iteration of the alias loop: what it adds to the state. -/
theorem runAlias_spec (cf : Cloudflare) (rg : Ranges) (devices : GoMap String ARecord)
    (st : RunState) (entry : String × List String) :
    ∃ upd : List GoError,
      (runAlias cf rg devices st entry).failures
        = st.failures ++ (notFoundErrors devices entry.1 entry.2 ++ upd) ∧
      upd.filter GoError.isUpdateFailure = upd ∧
      upd.filter GoError.isServerNotFound = [] ∧
      (runAlias cf rg devices st entry).failed = st.failed + upd.length ∧
      (runAlias cf rg devices st entry).successful + upd.length = st.successful + 1 ∧
      attempted (runAlias cf rg devices st entry).log = attempted st.log ++ [entry.1] := by
  unfold runAlias
  simp only [resolveServers_eq]
  rcases h : updateCloudflareRecord cf rg st.mgr entry.1
      (entry.2.filterMap (GoMap.get? devices)) with ⟨_ | err, mgr⟩
  · refine ⟨[], ?_⟩
    simp [attempted_append]
  · refine ⟨[GoError.errorf "(alias %s) failed to update Cloudflare record: %w" [entry.1]
      (some err)], ?_⟩
    simp [attempted_append, GoError.isUpdateFailure, GoError.isServerNotFound]

/-- The alias loop: what it adds to the state. -/
theorem foldl_runAlias_spec (cf : Cloudflare) (rg : Ranges) (devices : GoMap String ARecord)
    (entries : List (String × List String)) (st : RunState) :
    ∃ fs : List GoError,
      (entries.foldl (runAlias cf rg devices) st).failures = st.failures ++ fs ∧
      (entries.foldl (runAlias cf rg devices) st).failed
        = st.failed + (fs.filter GoError.isUpdateFailure).length ∧
      (fs.filter GoError.isServerNotFound).length
        = (entries.map fun e => (missingServers devices e.2).length).sum ∧
      (∀ e ∈ fs, e.isUpdateFailure = true ∨ e.isServerNotFound = true) ∧
      (entries.foldl (runAlias cf rg devices) st).successful
          + (entries.foldl (runAlias cf rg devices) st).failed
        = st.successful + st.failed + entries.length ∧
      attempted (entries.foldl (runAlias cf rg devices) st).log
        = attempted st.log ++ entries.map Prod.fst := by
  induction entries generalizing st with
  | nil => exact ⟨[], by simp⟩
  | cons entry entries ih =>
    obtain ⟨upd, h1, h2, h3, h4, h5, h6⟩ := runAlias_spec cf rg devices st entry
    obtain ⟨fs, g1, g2, g3, g4, g5, g6⟩ := ih (runAlias cf rg devices st entry)
    have hn := filter_notFoundErrors devices entry.1 entry.2
    refine ⟨notFoundErrors devices entry.1 entry.2 ++ upd ++ fs, ?_, ?_, ?_, ?_, ?_, ?_⟩
    · rw [List.foldl_cons, g1, h1]
      simp
    · rw [List.foldl_cons, g2, h4]
      simp only [List.filter_append, hn.2, h2, List.length_append, List.nil_append]
      omega
    · simp only [List.filter_append, hn.1, h3, List.length_append, g3, List.map_cons,
        List.sum_cons, length_notFoundErrors, List.length_nil]
      omega
    · intro e he
      rw [List.mem_append, List.mem_append] at he
      rcases he with (he | he) | he
      · exact Or.inr (isServerNotFound_of_mem_notFoundErrors _ _ _ e he).1
      · rw [← h2] at he
        exact Or.inl (List.mem_filter.1 he).2
      · exact g4 e he
    · rw [List.foldl_cons, g5, h4]
      simp only [List.length_cons]
      omega
    · rw [List.foldl_cons, g6, h6]
      simp

/-- Once the zone id is cached, `GetAddressesByName` keeps it and sends no
zone lookup: it sends the record listing only. -/
theorem GetAddressesByName_of_cached (cf : Cloudflare) (d : DNSManager) (zoneID name : String)
    (h : d.zoneID = some zoneID) :
    (d.GetAddressesByName cf name).2
      = { d with calls := d.calls ++ [Call.recordsList zoneID name] } := by
  unfold DNSManager.GetAddressesByName
  rw [getZone_of_cached cf d zoneID h]
  simp only
  split <;> rfl

/-- Once the zone id is cached, `UpdateAddressesByName` keeps it and sends no
zone lookup. -/
theorem UpdateAddressesByName_of_cached (cf : Cloudflare) (rg : Ranges) (d : DNSManager)
    (zoneID name : String) (addresses : List ARecord) (h : d.zoneID = some zoneID) :
    (d.UpdateAddressesByName cf rg name addresses).2.zoneID = some zoneID ∧
    (d.UpdateAddressesByName cf rg name addresses).2.zoneName = d.zoneName ∧
    Call.zonesList d.zoneName ∉
      ((d.UpdateAddressesByName cf rg name addresses).2.calls.drop d.calls.length) := by
  have hg := GetAddressesByName_of_cached cf d zoneID name h
  unfold DNSManager.UpdateAddressesByName
  rw [getZone_of_cached cf d zoneID h]
  simp only
  rcases hr : d.GetAddressesByName cf name with ⟨r, d2⟩
  rw [hr] at hg
  simp only at hg
  subst hg
  cases r <;> simp [h]

/-- A cached zone id stays cached through every later method call. -/
theorem zoneID_of_later (d d2 : DNSManager) (zoneID : String) (h : d.zoneID = some zoneID)
    (hl : DNSManager.Later d d2) : d2.zoneID = some zoneID := by
  induction hl with
  | same => exact h
  | getZone cf _ ih => rw [getZone_of_cached cf _ zoneID ih]; exact ih
  | getAddresses cf name _ ih => rw [GetAddressesByName_of_cached cf _ zoneID name ih]; exact ih
  | updateAddresses cf rg name addresses _ ih =>
    exact (UpdateAddressesByName_of_cached cf rg _ zoneID name addresses ih).1

theorem joined_of_failures (fs : List GoError) :
    GoError.joined (if fs.isEmpty then none else some (GoError.join fs)) = fs := by
  cases fs <;> simp [GoError.joined]

theorem sum_map_eq_zero_iff {α : Type} (l : List α) (f : α → Nat) :
    (l.map f).sum = 0 ↔ ∀ x ∈ l, f x = 0 := by
  induction l with
  | nil => simp
  | cons a l ih => simp [ih]

/-- A zone lookup that finds no zone fails `getZone` and leaves the cache unset. -/
theorem getZone_not_found (cf : Cloudflare) (d : DNSManager)
    (hz : ∀ calls name, cf.zonesList calls name = .ok []) (hd : d.zoneID = none) :
    d.getZone cf = (.error (.errorf "zone %s not found" [d.zoneName] none),
      { d with calls := d.calls ++ [Call.zonesList d.zoneName] }) := by
  simp [DNSManager.getZone, hd, hz]

theorem runAlias_zone_not_found (cf : Cloudflare) (rg : Ranges) (devices : GoMap String ARecord)
    (st : RunState) (entry : String × List String)
    (hz : ∀ calls name, cf.zonesList calls name = .ok []) (hd : st.mgr.zoneID = none) :
    (runAlias cf rg devices st entry).failures
      = st.failures ++ (notFoundErrors devices entry.1 entry.2
          ++ [zoneNotFoundFailure st.mgr.zoneName entry.1]) ∧
    (runAlias cf rg devices st entry).successful = st.successful ∧
    (runAlias cf rg devices st entry).failed = st.failed + 1 ∧
    (runAlias cf rg devices st entry).mgr
      = { st.mgr with calls := st.mgr.calls ++ [Call.zonesList st.mgr.zoneName] } := by
  simp [runAlias, resolveServers_eq, updateCloudflareRecord, DNSManager.UpdateAddressesByName,
    getZone_not_found cf st.mgr hz hd, zoneNotFoundFailure]

theorem foldl_runAlias_zone_not_found (cf : Cloudflare) (rg : Ranges)
    (devices : GoMap String ARecord) (entries : List (String × List String)) (st : RunState)
    (hz : ∀ calls name, cf.zonesList calls name = .ok []) (hd : st.mgr.zoneID = none) :
    (entries.foldl (runAlias cf rg devices) st).failures
      = st.failures ++ entries.flatMap (fun e =>
          notFoundErrors devices e.1 e.2 ++ [zoneNotFoundFailure st.mgr.zoneName e.1]) ∧
    (entries.foldl (runAlias cf rg devices) st).successful = st.successful ∧
    (entries.foldl (runAlias cf rg devices) st).failed = st.failed + entries.length ∧
    (entries.foldl (runAlias cf rg devices) st).mgr
      = { st.mgr with calls := st.mgr.calls
            ++ List.replicate entries.length (Call.zonesList st.mgr.zoneName) } := by
  induction entries generalizing st with
  | nil => simp
  | cons entry entries ih =>
    obtain ⟨h1, h2, h3, h4⟩ := runAlias_zone_not_found cf rg devices st entry hz hd
    have hd' : (runAlias cf rg devices st entry).mgr.zoneID = none := by rw [h4]; exact hd
    have hn : (runAlias cf rg devices st entry).mgr.zoneName = st.mgr.zoneName := by rw [h4]
    obtain ⟨g1, g2, g3, g4⟩ := ih (runAlias cf rg devices st entry) hd'
    rw [List.foldl_cons]
    refine ⟨?_, ?_, ?_, ?_⟩
    · rw [g1, h1, hn]; simp
    · rw [g2, h2]
    · rw [g3, h3, List.length_cons]; omega
    · rw [g4, h4]
      simp [List.replicate_succ]

/-- Every configured alias is attempted by `run`, once. -/
theorem attempted_run (cf : Cloudflare) (rg : Ranges) (cfg : Config)
    (devices : GoMap String ARecord) :
    (attempted (run cf rg (.ok cfg) (.ok devices)).log).Perm (cfg.Aliases.map Prod.fst) := by
  obtain ⟨fs, -, -, -, -, -, h6⟩ := foldl_runAlias_spec cf rg devices
    (rg.aliases.order cfg.Aliases)
    { failures := [], successful := 0, failed := 0, mgr := NewDNSManager cfg.ZoneName, log := [] }
  simp only [attempted, List.nil_append] at h6
  simp only [run, attempted_append_complete, h6]
  exact (rg.aliases.perm cfg.Aliases).map _

theorem zoneID_of_getZone_ok (cf : Cloudflare) (d d1 : DNSManager) (zoneID : String)
    (h : d.getZone cf = (.ok zoneID, d1)) : d1.zoneID = some zoneID := by
  unfold DNSManager.getZone at h
  rcases hd : d.zoneID with _ | z
  · rw [hd] at h
    simp only at h
    rcases hz : cf.zonesList d.calls d.zoneName with err | ids
    · rw [hz] at h; simp at h
    · rw [hz] at h
      cases ids with
      | nil => simp at h
      | cons z ids =>
        simp only [Prod.mk.injEq, Except.ok.injEq] at h
        rw [← h.2, h.1]
  · rw [hd] at h
    simp only [Prod.mk.injEq, Except.ok.injEq] at h
    rw [← h.2, hd, h.1]

/-- The update of an alias succeeds exactly when the zone is resolved, the
listing of the stored records ends without an error and the batch built from
the diff is applied without an error. -/
theorem updateCloudflareRecord_eq_none_iff (cf : Cloudflare) (rg : Ranges) (mgr : DNSManager)
    (name : String) (addresses : List ARecord) :
    (updateCloudflareRecord cf rg mgr name addresses).1 = none ↔
      ∃ zoneID d1, mgr.getZone cf = (.ok zoneID, d1) ∧
        (cf.recordsList d1.calls zoneID name).2 = none ∧
        cf.recordsBatch (d1.calls ++ [Call.recordsList zoneID name])
          (batchParams zoneID name
            (crud rg.afterSet rg.existingSet
              ((cf.recordsList d1.calls zoneID name).1.map fun record =>
                ({ Id := record.ID, Address := record.Content, TailscaleName := record.Name }
                  : ARecord))
              addresses fun a => a.Address)) = none := by
  unfold updateCloudflareRecord DNSManager.UpdateAddressesByName
  rcases hg : mgr.getZone cf with ⟨err | zoneID, d1⟩
  · simp
  · have hc := zoneID_of_getZone_ok cf mgr d1 zoneID hg
    simp only [DNSManager.GetAddressesByName, getZone_of_cached cf d1 zoneID hc]
    constructor
    · intro h
      refine ⟨zoneID, d1, rfl, ?_⟩
      rcases hp : (cf.recordsList d1.calls zoneID name).2 with _ | perr
      · rw [hp] at h
        simp only at h
        refine ⟨rfl, ?_⟩
        revert h
        split
        · intro h; exact Option.noConfusion h
        · rename_i heq
          intro _
          exact congrArg Prod.fst heq
      · rw [hp] at h
        exact Option.noConfusion h
    · rintro ⟨z, d, hzd, hp, hb⟩
      cases hzd
      rw [hp]
      simp only
      rw [hb]

/-- One iteration of the alias loop, by the result of the update. -/
theorem runAlias_outcome (cf : Cloudflare) (rg : Ranges) (devices : GoMap String ARecord)
    (st : RunState) (entry : String × List String) :
    (runAlias cf rg devices st entry).failures
      = st.failures ++ AliasOutcome.failures devices
          { aliasName := entry.1, servers := entry.2, mgr := st.mgr
            updateErr := (updateCloudflareRecord cf rg st.mgr entry.1
              (entry.2.filterMap (GoMap.get? devices))).1 } ∧
    (runAlias cf rg devices st entry).failed
      = st.failed + (if (updateCloudflareRecord cf rg st.mgr entry.1
          (entry.2.filterMap (GoMap.get? devices))).1.isSome then 1 else 0) ∧
    (runAlias cf rg devices st entry).successful
      = st.successful + (if (updateCloudflareRecord cf rg st.mgr entry.1
          (entry.2.filterMap (GoMap.get? devices))).1.isNone then 1 else 0) ∧
    (runAlias cf rg devices st entry).mgr
      = (updateCloudflareRecord cf rg st.mgr entry.1
          (entry.2.filterMap (GoMap.get? devices))).2 := by
  unfold runAlias
  simp only [resolveServers_eq]
  rcases h : updateCloudflareRecord cf rg st.mgr entry.1
      (entry.2.filterMap (GoMap.get? devices)) with ⟨_ | err, mgr⟩ <;>
    simp [AliasOutcome.failures]

/-- The alias loop, by the outcomes of the aliases. -/
theorem foldl_runAlias_outcomes (cf : Cloudflare) (rg : Ranges) (devices : GoMap String ARecord)
    (entries : List (String × List String)) (st : RunState) :
    (entries.foldl (runAlias cf rg devices) st).failures
      = st.failures ++ (aliasOutcomes cf rg devices st.mgr entries).flatMap
          (AliasOutcome.failures devices) ∧
    (entries.foldl (runAlias cf rg devices) st).failed
      = st.failed + ((aliasOutcomes cf rg devices st.mgr entries).filter
          fun o => o.updateErr.isSome).length ∧
    (entries.foldl (runAlias cf rg devices) st).successful
      = st.successful + ((aliasOutcomes cf rg devices st.mgr entries).filter
          fun o => o.updateErr.isNone).length := by
  induction entries generalizing st with
  | nil => simp [aliasOutcomes]
  | cons entry entries ih =>
    obtain ⟨h1, h2, h3, h4⟩ := runAlias_outcome cf rg devices st entry
    obtain ⟨g1, g2, g3⟩ := ih (runAlias cf rg devices st entry)
    rw [List.foldl_cons, g1, g2, g3, h1, h2, h3, h4]
    simp only [aliasOutcomes, List.flatMap_cons, List.append_assoc, List.filter_cons]
    refine ⟨trivial, ?_, ?_⟩
    · split
      · simp; omega
      · simp
    · split
      · simp; omega
      · simp

theorem aliasName_aliasOutcomes (cf : Cloudflare) (rg : Ranges) (devices : GoMap String ARecord)
    (entries : List (String × List String)) (mgr : DNSManager) :
    (aliasOutcomes cf rg devices mgr entries).map (fun o => (o.aliasName, o.servers)) = entries := by
  induction entries generalizing mgr with
  | nil => rfl
  | cons entry entries ih => simp [aliasOutcomes, ih]

theorem updateErr_aliasOutcomes (cf : Cloudflare) (rg : Ranges) (devices : GoMap String ARecord)
    (entries : List (String × List String)) (mgr : DNSManager) :
    ∀ o ∈ aliasOutcomes cf rg devices mgr entries,
      o.updateErr = (updateCloudflareRecord cf rg o.mgr o.aliasName
        (o.servers.filterMap (GoMap.get? devices))).1 := by
  induction entries generalizing mgr with
  | nil => intro o ho; simp [aliasOutcomes] at ho
  | cons entry entries ih =>
    intro o ho
    simp only [aliasOutcomes, List.mem_cons] at ho
    rcases ho with rfl | ho
    · rfl
    · exact ih _ o ho

/-! ## Properties of `crud` -/

section crudTheorems

variable {T K : Type} [DecidableEq K]

/-- C1: partition completeness of `crud`. A record is identified by its key
(for the program, its address), and `update` holds the current record of a
key present on both sides. For every input, every key function and every
range order, the key of every element of `current` is carried by exactly one
record of `update ++ delete`, so by exactly one of the two lists, and the key
of every element of `after` by exactly one record of `create ++ update`.
Record by record: an element of `current` that is the last one with its key
is itself in exactly one of `update` and `delete`, and an element of `after`
that is the last one with its key, the key being absent from `current`, is
itself in `create`. -/
theorem crud_partition_by_key (ra re : RangeOrder (K × T)) (current after : List T)
    (keyFunc : T → K) :
    (∀ c ∈ current,
      (((crud ra re current after keyFunc).update ++
        (crud ra re current after keyFunc).delete).map keyFunc).count (keyFunc c) = 1) ∧
    (∀ a ∈ after,
      (((crud ra re current after keyFunc).create ++
        (crud ra re current after keyFunc).update).map keyFunc).count (keyFunc a) = 1) ∧
    (∀ c ∈ current, lastWithKey keyFunc current (keyFunc c) = some c →
      (c ∈ (crud ra re current after keyFunc).update ∧
        c ∉ (crud ra re current after keyFunc).delete) ∨
      (c ∉ (crud ra re current after keyFunc).update ∧
        c ∈ (crud ra re current after keyFunc).delete)) ∧
    (∀ a ∈ after, lastWithKey keyFunc after (keyFunc a) = some a →
      keyFunc a ∉ current.map keyFunc → a ∈ (crud ra re current after keyFunc).create) := by
  refine ⟨?_, ?_, ?_, ?_⟩
  · intro c hc
    rw [(crud_update_delete_keys_perm ra re current after keyFunc).count_eq]
    exact List.count_eq_one_of_mem (nodup_keys_keyedSet current keyFunc)
      ((mem_keys_keyedSet current keyFunc _).2 (List.mem_map_of_mem keyFunc hc))
  · intro a ha
    have hp := (crud_create_keys_perm ra re current after keyFunc).append
      (crud_update_keys_perm ra re current after keyFunc)
    rw [List.map_append, hp.count_eq]
    apply List.count_eq_one_of_mem
    · refine List.Nodup.append ((nodup_keys_keyedSet after keyFunc).filter _)
        ((nodup_keys_keyedSet current keyFunc).filter _) ?_
      intro k h1 h2
      rw [List.mem_filter] at h1 h2
      have h3 := (mem_keys_keyedSet current keyFunc k).1 h2.1
      simp [h3] at h1
    · have hka : keyFunc a ∈ after.map keyFunc := List.mem_map_of_mem keyFunc ha
      rw [List.mem_append, List.mem_filter, List.mem_filter, mem_keys_keyedSet,
        mem_keys_keyedSet]
      by_cases hk : keyFunc a ∈ current.map keyFunc
      · exact Or.inr ⟨hk, by simpa using hka⟩
      · exact Or.inl ⟨hka, by simpa using hk⟩
  · intro c _ hl
    rw [mem_crud_update, mem_crud_delete]
    by_cases hk : keyFunc c ∈ after.map keyFunc
    · exact Or.inl ⟨⟨hl, hk⟩, fun h => h.2 hk⟩
    · exact Or.inr ⟨fun h => hk h.2, ⟨hl, hk⟩⟩
  · intro a _ hl hk
    rw [mem_crud_create]
    exact ⟨hl, hk⟩

/-- Witness of `crud_partition_by_key`: two stored records of one address and
a desired record of the same address. -/
theorem crud_partition_by_key_witness :
    ((((crud (RangeOrder.insertion _) (RangeOrder.reversed _)
        [(⟨"id1", "10.0.0.1", "web"⟩ : ARecord), ⟨"id2", "10.0.0.1", "db"⟩]
        [⟨"", "10.0.0.1", "web"⟩] fun a => a.Address).update ++
      (crud (RangeOrder.insertion _) (RangeOrder.reversed _)
        [(⟨"id1", "10.0.0.1", "web"⟩ : ARecord), ⟨"id2", "10.0.0.1", "db"⟩]
        [⟨"", "10.0.0.1", "web"⟩] fun a => a.Address).delete).map
          fun a => a.Address).count "10.0.0.1" = 1) ∧
    (⟨"id2", "10.0.0.1", "db"⟩ : ARecord) ∈
      (crud (RangeOrder.insertion _) (RangeOrder.reversed _)
        [(⟨"id1", "10.0.0.1", "web"⟩ : ARecord), ⟨"id2", "10.0.0.1", "db"⟩]
        [⟨"", "10.0.0.1", "web"⟩] fun a => a.Address).update :=
  ⟨(crud_partition_by_key (RangeOrder.insertion _) (RangeOrder.reversed _)
      [(⟨"id1", "10.0.0.1", "web"⟩ : ARecord), ⟨"id2", "10.0.0.1", "db"⟩]
      [⟨"", "10.0.0.1", "web"⟩] fun a => a.Address).1 ⟨"id1", "10.0.0.1", "web"⟩ (by decide),
   by decide⟩

/-- C2, as stated, fails: the two desired records share an address that no
stored record has, and `create` holds only the second of them; with nothing
desired, the first of two stored records of one address is not in `delete`. -/
theorem crud_disjoint_counterexample :
    (crud (RangeOrder.insertion _) (RangeOrder.insertion _) ([] : List ARecord)
      [⟨"", "10.0.0.2", "web"⟩, ⟨"", "10.0.0.2", "db"⟩] fun a => a.Address).create
        = [⟨"", "10.0.0.2", "db"⟩] ∧
    (crud (RangeOrder.insertion _) (RangeOrder.insertion _)
      [(⟨"id1", "10.0.0.1", "web"⟩ : ARecord), ⟨"id2", "10.0.0.1", "web"⟩] []
      fun a => a.Address).delete = [⟨"id2", "10.0.0.1", "web"⟩] := by
  decide

/-- C2, amended: when no key of `current` is a key of `after`, `update` is
empty, `create` holds exactly the records of `after` that are the last of
their key and `delete` exactly the records of `current` that are the last of
their key; when the keys of `after` are pairwise distinct `create` is `after`
up to order, and when the keys of `current` are pairwise distinct `delete` is
`current` up to order. -/
theorem crud_disjoint (ra re : RangeOrder (K × T)) (current after : List T) (keyFunc : T → K)
    (hdisj : ∀ c ∈ current, ∀ a ∈ after, keyFunc c ≠ keyFunc a) :
    (crud ra re current after keyFunc).update = [] ∧
    (∀ x, x ∈ (crud ra re current after keyFunc).create ↔
      lastWithKey keyFunc after (keyFunc x) = some x) ∧
    (∀ x, x ∈ (crud ra re current after keyFunc).delete ↔
      lastWithKey keyFunc current (keyFunc x) = some x) ∧
    ((after.map keyFunc).Nodup → (crud ra re current after keyFunc).create.Perm after) ∧
    ((current.map keyFunc).Nodup → (crud ra re current after keyFunc).delete.Perm current) := by
  have hca : ∀ k, k ∈ current.map keyFunc → k ∉ after.map keyFunc := by
    intro k hkc hka
    obtain ⟨c, hc, e1⟩ := List.mem_map.1 hkc
    obtain ⟨a, ha, e2⟩ := List.mem_map.1 hka
    exact hdisj c hc a ha (e1.trans e2.symm)
  refine ⟨?_, ?_, ?_, ?_, ?_⟩
  · apply List.eq_nil_iff_forall_not_mem.2
    intro x hx
    rw [mem_crud_update] at hx
    exact hca _ (List.mem_map_of_mem keyFunc (lastWithKey_key keyFunc current _ x hx.1).2) hx.2
  · intro x
    rw [mem_crud_create]
    constructor
    · exact fun h => h.1
    · intro h
      exact ⟨h, fun hc => hca _ hc
        (List.mem_map_of_mem keyFunc (lastWithKey_key keyFunc after _ x h).2)⟩
  · intro x
    rw [mem_crud_delete]
    constructor
    · exact fun h => h.1
    · intro h
      exact ⟨h, hca _ (List.mem_map_of_mem keyFunc (lastWithKey_key keyFunc current _ x h).2)⟩
  · intro hn
    have hp := crud_create_perm ra re current after keyFunc
    rw [filter_keyedSet_of_nodup after keyFunc (fun k => !decide (k ∈ current.map keyFunc)) hn] at hp
    have hf : (after.filter fun x => !decide (keyFunc x ∈ current.map keyFunc)) = after := by
      apply List.filter_eq_self.2
      intro a ha
      have : keyFunc a ∉ current.map keyFunc :=
        fun hc => hca _ hc (List.mem_map_of_mem keyFunc ha)
      simpa using this
    rwa [hf] at hp
  · intro hn
    have hp := crud_delete_perm ra re current after keyFunc
    rw [filter_keyedSet_of_nodup current keyFunc (fun k => !decide (k ∈ after.map keyFunc)) hn] at hp
    have hf : (current.filter fun x => !decide (keyFunc x ∈ after.map keyFunc)) = current := by
      apply List.filter_eq_self.2
      intro c hc
      have : keyFunc c ∉ after.map keyFunc := hca _ (List.mem_map_of_mem keyFunc hc)
      simpa using this
    rwa [hf] at hp

/-- Witness of `crud_disjoint`: scenario A of the specification. -/
theorem crud_disjoint_witness :
    (crud (RangeOrder.reversed _) (RangeOrder.reversed _)
      [(⟨"1", "10.0.0.1", "web"⟩ : ARecord)] [⟨"", "10.0.0.2", "web"⟩] fun a => a.Address).update
        = [] ∧
    (crud (RangeOrder.reversed _) (RangeOrder.reversed _)
      [(⟨"1", "10.0.0.1", "web"⟩ : ARecord)] [⟨"", "10.0.0.2", "web"⟩]
        fun a => a.Address).create.Perm [⟨"", "10.0.0.2", "web"⟩] ∧
    (crud (RangeOrder.reversed _) (RangeOrder.reversed _)
      [(⟨"1", "10.0.0.1", "web"⟩ : ARecord)] [⟨"", "10.0.0.2", "web"⟩]
        fun a => a.Address).delete.Perm [⟨"1", "10.0.0.1", "web"⟩] :=
  have h := crud_disjoint (RangeOrder.reversed _) (RangeOrder.reversed _)
    [(⟨"1", "10.0.0.1", "web"⟩ : ARecord)] [⟨"", "10.0.0.2", "web"⟩] (fun a => a.Address)
    (by decide)
  ⟨h.1, h.2.2.2.1 (by decide), h.2.2.2.2 (by decide)⟩

/-- C3, as stated, fails: both sides have the one address 10.0.0.1, and the
first stored record of that address is not in `update`. -/
theorem crud_same_keys_counterexample :
    (∀ k, k ∈ [(⟨"id1", "10.0.0.1", "web"⟩ : ARecord), ⟨"id2", "10.0.0.1", "db"⟩].map
        (fun a => a.Address) ↔
      k ∈ [(⟨"", "10.0.0.1", "web"⟩ : ARecord)].map fun a => a.Address) ∧
    (⟨"id1", "10.0.0.1", "web"⟩ : ARecord) ∉
      (crud (RangeOrder.insertion _) (RangeOrder.insertion _)
        [(⟨"id1", "10.0.0.1", "web"⟩ : ARecord), ⟨"id2", "10.0.0.1", "db"⟩]
        [⟨"", "10.0.0.1", "web"⟩] fun a => a.Address).update := by
  refine ⟨?_, by decide⟩
  intro k
  simp

/-- C3, amended: when `current` and `after` have the same keys, `create` and
`delete` are empty and `update` holds exactly the records of `current` that
are the last of their key, with their ids; when the keys of `current` are
pairwise distinct, `update` is `current` up to order. -/
theorem crud_same_keys (ra re : RangeOrder (K × T)) (current after : List T) (keyFunc : T → K)
    (hkeys : ∀ k, k ∈ current.map keyFunc ↔ k ∈ after.map keyFunc) :
    (crud ra re current after keyFunc).create = [] ∧
    (crud ra re current after keyFunc).delete = [] ∧
    (∀ x, x ∈ (crud ra re current after keyFunc).update ↔
      lastWithKey keyFunc current (keyFunc x) = some x) ∧
    ((current.map keyFunc).Nodup → (crud ra re current after keyFunc).update.Perm current) := by
  refine ⟨?_, ?_, ?_, ?_⟩
  · apply List.eq_nil_iff_forall_not_mem.2
    intro x hx
    rw [mem_crud_create] at hx
    exact hx.2 ((hkeys _).2
      (List.mem_map_of_mem keyFunc (lastWithKey_key keyFunc after _ x hx.1).2))
  · apply List.eq_nil_iff_forall_not_mem.2
    intro x hx
    rw [mem_crud_delete] at hx
    exact hx.2 ((hkeys _).1
      (List.mem_map_of_mem keyFunc (lastWithKey_key keyFunc current _ x hx.1).2))
  · intro x
    rw [mem_crud_update]
    constructor
    · exact fun h => h.1
    · intro h
      exact ⟨h, (hkeys _).1
        (List.mem_map_of_mem keyFunc (lastWithKey_key keyFunc current _ x h).2)⟩
  · intro hn
    have hp := crud_update_perm ra re current after keyFunc
    rw [filter_keyedSet_of_nodup current keyFunc (fun k => decide (k ∈ after.map keyFunc)) hn] at hp
    have hf : (current.filter fun x => decide (keyFunc x ∈ after.map keyFunc)) = current := by
      apply List.filter_eq_self.2
      intro c hc
      have : keyFunc c ∈ after.map keyFunc := (hkeys _).1 (List.mem_map_of_mem keyFunc hc)
      simpa using this
    rwa [hf] at hp

/-- Witness of `crud_same_keys`: a second run against a store that already
holds the two desired addresses. -/
theorem crud_same_keys_witness :
    (crud (RangeOrder.insertion _) (RangeOrder.reversed _)
      [(⟨"id1", "10.0.0.1", "web"⟩ : ARecord), ⟨"id2", "10.0.0.2", "db"⟩]
      [⟨"", "10.0.0.2", "db"⟩, ⟨"", "10.0.0.1", "web"⟩] fun a => a.Address).create = [] ∧
    (crud (RangeOrder.insertion _) (RangeOrder.reversed _)
      [(⟨"id1", "10.0.0.1", "web"⟩ : ARecord), ⟨"id2", "10.0.0.2", "db"⟩]
      [⟨"", "10.0.0.2", "db"⟩, ⟨"", "10.0.0.1", "web"⟩] fun a => a.Address).delete = [] ∧
    (crud (RangeOrder.insertion _) (RangeOrder.reversed _)
      [(⟨"id1", "10.0.0.1", "web"⟩ : ARecord), ⟨"id2", "10.0.0.2", "db"⟩]
      [⟨"", "10.0.0.2", "db"⟩, ⟨"", "10.0.0.1", "web"⟩] fun a => a.Address).update.Perm
        [⟨"id1", "10.0.0.1", "web"⟩, ⟨"id2", "10.0.0.2", "db"⟩] :=
  have h := crud_same_keys (RangeOrder.insertion _) (RangeOrder.reversed _)
    [(⟨"id1", "10.0.0.1", "web"⟩ : ARecord), ⟨"id2", "10.0.0.2", "db"⟩]
    [⟨"", "10.0.0.2", "db"⟩, ⟨"", "10.0.0.1", "web"⟩] (fun a => a.Address)
    (by intro k; simp [or_comm])
  ⟨h.1, h.2.1, h.2.2.2 (by decide)⟩

/-- C4, as stated, fails: the stored record `id1` and the desired record have
the same address and different names and ids, and `id1` is not in `update`:
a later stored record of the same address took its place in `existingSet`. -/
theorem crud_key_stability_counterexample :
    (⟨"id1", "10.0.0.7", "old"⟩ : ARecord) ∈
      [(⟨"id1", "10.0.0.7", "old"⟩ : ARecord), ⟨"id2", "10.0.0.7", "older"⟩] ∧
    (⟨"id1", "10.0.0.7", "old"⟩ : ARecord).Address = (⟨"", "10.0.0.7", "new"⟩ : ARecord).Address ∧
    (⟨"id1", "10.0.0.7", "old"⟩ : ARecord) ∉
      (crud (RangeOrder.insertion _) (RangeOrder.insertion _)
        [(⟨"id1", "10.0.0.7", "old"⟩ : ARecord), ⟨"id2", "10.0.0.7", "older"⟩]
        [⟨"", "10.0.0.7", "new"⟩] fun a => a.Address).update := by
  decide

/-- C4, amended: key stability under a metadata-only change. For a stored
record `c` and a desired record `a` of the same address, whatever their names
and ids, `crud` keyed by address puts into `update` the last stored record of
that address, unchanged (so with its remote id); this is `c` itself when `c`
is the last stored record of its address. It puts `c` not into `delete`, `a`
not into `create`, and no record of that address into either. -/
theorem crud_key_stability (ra re : RangeOrder (String × ARecord)) (current after : List ARecord)
    (c a : ARecord) (hc : c ∈ current) (ha : a ∈ after) (haddr : c.Address = a.Address) :
    (∃ c', lastWithKey (fun r : ARecord => r.Address) current c.Address = some c' ∧
      c' ∈ current ∧ c'.Address = c.Address ∧
      c' ∈ (crud ra re current after fun r => r.Address).update) ∧
    (lastWithKey (fun r : ARecord => r.Address) current c.Address = some c →
      c ∈ (crud ra re current after fun r => r.Address).update) ∧
    c ∉ (crud ra re current after fun r => r.Address).delete ∧
    a ∉ (crud ra re current after fun r => r.Address).create ∧
    (∀ x ∈ (crud ra re current after fun r => r.Address).create ++
        (crud ra re current after fun r => r.Address).delete, x.Address ≠ c.Address) := by
  have hkc : c.Address ∈ current.map fun r => r.Address :=
    List.mem_map_of_mem (fun r : ARecord => r.Address) hc
  have hka : c.Address ∈ after.map fun r => r.Address := by
    rw [haddr]
    exact List.mem_map_of_mem (fun r : ARecord => r.Address) ha
  refine ⟨?_, ?_, ?_, ?_, ?_⟩
  · have hs := (lastWithKey_isSome (fun r : ARecord => r.Address) current c.Address).2 hkc
    obtain ⟨c', hc'⟩ := Option.isSome_iff_exists.1 hs
    have hk := lastWithKey_key _ _ _ _ hc'
    refine ⟨c', hc', hk.2, hk.1, ?_⟩
    rw [mem_crud_update]
    simp only at hk
    rw [hk.1]
    exact ⟨hc', hka⟩
  · intro hl
    rw [mem_crud_update]
    exact ⟨hl, hka⟩
  · rw [mem_crud_delete]
    exact fun h => h.2 hka
  · rw [mem_crud_create]
    intro h
    apply h.2
    rw [← haddr]
    exact hkc
  · intro x hx
    rw [List.mem_append, mem_crud_create, mem_crud_delete] at hx
    intro e
    rw [e] at hx
    rcases hx with h | h
    · exact h.2 hkc
    · exact h.2 hka

/-- Witness of `crud_key_stability`: the device behind a stored address was
renamed. -/
theorem crud_key_stability_witness :
    (⟨"id9", "10.0.0.9", "old-name"⟩ : ARecord) ∈
      (crud (RangeOrder.insertion _) (RangeOrder.insertion _)
        [(⟨"id9", "10.0.0.9", "old-name"⟩ : ARecord)] [⟨"", "10.0.0.9", "new-name"⟩]
        fun r => r.Address).update ∧
    (⟨"id9", "10.0.0.9", "old-name"⟩ : ARecord) ∉
      (crud (RangeOrder.insertion _) (RangeOrder.insertion _)
        [(⟨"id9", "10.0.0.9", "old-name"⟩ : ARecord)] [⟨"", "10.0.0.9", "new-name"⟩]
        fun r => r.Address).delete ∧
    (⟨"", "10.0.0.9", "new-name"⟩ : ARecord) ∉
      (crud (RangeOrder.insertion _) (RangeOrder.insertion _)
        [(⟨"id9", "10.0.0.9", "old-name"⟩ : ARecord)] [⟨"", "10.0.0.9", "new-name"⟩]
        fun r => r.Address).create :=
  have h := crud_key_stability (RangeOrder.insertion _) (RangeOrder.insertion _)
    [(⟨"id9", "10.0.0.9", "old-name"⟩ : ARecord)] [⟨"", "10.0.0.9", "new-name"⟩]
    ⟨"id9", "10.0.0.9", "old-name"⟩ ⟨"", "10.0.0.9", "new-name"⟩
    (by decide) (by decide) (by decide)
  ⟨h.2.1 (by decide), h.2.2.1, h.2.2.2.1⟩

/-- C5: when the keys of `current` are pairwise distinct and so are the keys of
`after`, `len(create) + len(update) = len(after)` and
`len(update) + len(delete) = len(current)`. -/
theorem crud_lengths (ra re : RangeOrder (K × T)) (current after : List T) (keyFunc : T → K)
    (hcur : (current.map keyFunc).Nodup) (haft : (after.map keyFunc).Nodup) :
    (crud ra re current after keyFunc).create.length +
        (crud ra re current after keyFunc).update.length = after.length ∧
    (crud ra re current after keyFunc).update.length +
        (crud ra re current after keyFunc).delete.length = current.length := by
  have hcr := (crud_create_perm ra re current after keyFunc).length_eq
  have hup := (crud_update_perm ra re current after keyFunc).length_eq
  have hde := (crud_delete_perm ra re current after keyFunc).length_eq
  rw [filter_keyedSet_of_nodup after keyFunc (fun k => !decide (k ∈ current.map keyFunc)) haft]
    at hcr
  rw [filter_keyedSet_of_nodup current keyFunc (fun k => decide (k ∈ after.map keyFunc)) hcur]
    at hup
  rw [filter_keyedSet_of_nodup current keyFunc (fun k => !decide (k ∈ after.map keyFunc)) hcur]
    at hde
  have hsame : (current.filter fun x => decide (keyFunc x ∈ after.map keyFunc)).length
      = (after.filter fun x => decide (keyFunc x ∈ current.map keyFunc)).length := by
    have h1 : ((current.filter fun x => decide (keyFunc x ∈ after.map keyFunc)).map keyFunc)
        = (current.map keyFunc).filter fun k => decide (k ∈ after.map keyFunc) := by
      rw [List.filter_map]; rfl
    have h2 : ((after.filter fun x => decide (keyFunc x ∈ current.map keyFunc)).map keyFunc)
        = (after.map keyFunc).filter fun k => decide (k ∈ current.map keyFunc) := by
      rw [List.filter_map]; rfl
    have hp : ((current.map keyFunc).filter fun k => decide (k ∈ after.map keyFunc)).Perm
        ((after.map keyFunc).filter fun k => decide (k ∈ current.map keyFunc)) := by
      rw [List.perm_ext_iff_of_nodup (hcur.filter _) (haft.filter _)]
      intro k
      simp only [List.mem_filter, decide_eq_true_eq]
      exact And.comm
    have := hp.length_eq
    rw [← h1, ← h2, List.length_map, List.length_map] at this
    exact this
  have hsplit1 := List.length_eq_length_filter_add (l := after)
    (fun x => decide (keyFunc x ∈ current.map keyFunc))
  have hsplit2 := List.length_eq_length_filter_add (l := current)
    (fun x => decide (keyFunc x ∈ after.map keyFunc))
  constructor
  · rw [hcr, hup, hsame, hsplit1]; omega
  · rw [hup, hde, hsplit2]

/-- Witness of `crud_lengths`: two stored and two desired records, one address
in common. -/
theorem crud_lengths_witness :
    (crud (RangeOrder.reversed _) (RangeOrder.insertion _)
      [(⟨"id1", "10.0.0.1", "web"⟩ : ARecord), ⟨"id2", "10.0.0.2", "db"⟩]
      [⟨"", "10.0.0.2", "db"⟩, ⟨"", "10.0.0.3", "cache"⟩] fun a => a.Address).create.length +
    (crud (RangeOrder.reversed _) (RangeOrder.insertion _)
      [(⟨"id1", "10.0.0.1", "web"⟩ : ARecord), ⟨"id2", "10.0.0.2", "db"⟩]
      [⟨"", "10.0.0.2", "db"⟩, ⟨"", "10.0.0.3", "cache"⟩] fun a => a.Address).update.length
      = 2 ∧
    (crud (RangeOrder.reversed _) (RangeOrder.insertion _)
      [(⟨"id1", "10.0.0.1", "web"⟩ : ARecord), ⟨"id2", "10.0.0.2", "db"⟩]
      [⟨"", "10.0.0.2", "db"⟩, ⟨"", "10.0.0.3", "cache"⟩] fun a => a.Address).update.length +
    (crud (RangeOrder.reversed _) (RangeOrder.insertion _)
      [(⟨"id1", "10.0.0.1", "web"⟩ : ARecord), ⟨"id2", "10.0.0.2", "db"⟩]
      [⟨"", "10.0.0.2", "db"⟩, ⟨"", "10.0.0.3", "cache"⟩] fun a => a.Address).delete.length
      = 2 :=
  crud_lengths (RangeOrder.reversed _) (RangeOrder.insertion _)
    [(⟨"id1", "10.0.0.1", "web"⟩ : ARecord), ⟨"id2", "10.0.0.2", "db"⟩]
    [⟨"", "10.0.0.2", "db"⟩, ⟨"", "10.0.0.3", "cache"⟩] (fun a => a.Address)
    (by decide) (by decide)

/-- C6: for every input and every range order, no key occurs twice among the
records of `create`, `update` and `delete` taken together: the three lists
have no key in common and none of them repeats a key. -/
theorem crud_keys_nodup (ra re : RangeOrder (K × T)) (current after : List T) (keyFunc : T → K) :
    (((crud ra re current after keyFunc).create ++ ((crud ra re current after keyFunc).update ++
      (crud ra re current after keyFunc).delete)).map keyFunc).Nodup := by
  rw [List.map_append]
  have hp := (crud_create_keys_perm ra re current after keyFunc).append
    (crud_update_delete_keys_perm ra re current after keyFunc)
  rw [hp.nodup_iff]
  refine List.Nodup.append ((nodup_keys_keyedSet after keyFunc).filter _)
    (nodup_keys_keyedSet current keyFunc) ?_
  intro k h1 h2
  rw [List.mem_filter] at h1
  have h3 := (mem_keys_keyedSet current keyFunc k).1 h2
  simp [h3] at h1

/-- C7: last write wins on duplicate keys. `crud` is a total function (it
returns on every input, whatever keys repeat), and a record `x` of key `k` in
`create` is the last record of `after` with key `k`, a record `x` of key `k`
in `update` or `delete` is the last record of `current` with key `k`. -/
theorem crud_last_write_wins (ra re : RangeOrder (K × T)) (current after : List T)
    (keyFunc : T → K) (k : K) (x : T) (hk : keyFunc x = k) :
    (x ∈ (crud ra re current after keyFunc).create → lastWithKey keyFunc after k = some x) ∧
    (x ∈ (crud ra re current after keyFunc).update ∨ x ∈ (crud ra re current after keyFunc).delete →
      lastWithKey keyFunc current k = some x) := by
  subst hk
  constructor
  · intro h
    exact ((mem_crud_create ra re current after keyFunc x).1 h).1
  · rintro (h | h)
    · exact ((mem_crud_update ra re current after keyFunc x).1 h).1
    · exact ((mem_crud_delete ra re current after keyFunc x).1 h).1

/-- Witness of `crud_last_write_wins`: both sides repeat an address. -/
theorem crud_last_write_wins_witness :
    lastWithKey (fun a : ARecord => a.Address)
      [⟨"", "10.0.0.2", "db"⟩, ⟨"", "10.0.0.2", "db2"⟩] "10.0.0.2" = some ⟨"", "10.0.0.2", "db2"⟩ ∧
    lastWithKey (fun a : ARecord => a.Address)
      [⟨"id1", "10.0.0.1", "web"⟩, ⟨"id2", "10.0.0.1", "web2"⟩] "10.0.0.1"
        = some ⟨"id2", "10.0.0.1", "web2"⟩ :=
  ⟨(crud_last_write_wins (RangeOrder.insertion _) (RangeOrder.insertion _)
      [(⟨"id1", "10.0.0.1", "web"⟩ : ARecord), ⟨"id2", "10.0.0.1", "web2"⟩]
      [⟨"", "10.0.0.2", "db"⟩, ⟨"", "10.0.0.2", "db2"⟩] (fun a => a.Address)
      "10.0.0.2" ⟨"", "10.0.0.2", "db2"⟩ rfl).1 (by decide),
   (crud_last_write_wins (RangeOrder.insertion _) (RangeOrder.insertion _)
      [(⟨"id1", "10.0.0.1", "web"⟩ : ARecord), ⟨"id2", "10.0.0.1", "web2"⟩]
      [⟨"", "10.0.0.2", "db"⟩, ⟨"", "10.0.0.2", "db2"⟩] (fun a => a.Address)
      "10.0.0.1" ⟨"id2", "10.0.0.1", "web2"⟩ rfl).2 (Or.inr (by decide))⟩

end crudTheorems

/-! ## Properties of `getZone` and `run` -/

/-- C8, as stated, fails: scenario C of the specification. The alias `www` has
two server names, `n2` is not in the device directory, the zone is found and
the batch is applied. No alias failed to update (the failed counter is 0, the
successful counter is 1), and `run` returns an error all the same: the join of
the one server-not-found error. -/
theorem run_soft_failure_counterexample :
    (run ⟨fun _ _ => .ok ["zone1"], fun _ _ _ => ([], none), fun _ _ => none⟩
      ⟨RangeOrder.insertion _, RangeOrder.insertion _, RangeOrder.insertion _⟩
      (.ok ⟨"example.com", [("www", ["n1", "n2"])]⟩)
      (.ok [("n1", ⟨"", "100.64.0.1", "n1"⟩)])).failed = 0 ∧
    (run ⟨fun _ _ => .ok ["zone1"], fun _ _ _ => ([], none), fun _ _ => none⟩
      ⟨RangeOrder.insertion _, RangeOrder.insertion _, RangeOrder.insertion _⟩
      (.ok ⟨"example.com", [("www", ["n1", "n2"])]⟩)
      (.ok [("n1", ⟨"", "100.64.0.1", "n1"⟩)])).successful = 1 ∧
    (run ⟨fun _ _ => .ok ["zone1"], fun _ _ _ => ([], none), fun _ _ => none⟩
      ⟨RangeOrder.insertion _, RangeOrder.insertion _, RangeOrder.insertion _⟩
      (.ok ⟨"example.com", [("www", ["n1", "n2"])]⟩)
      (.ok [("n1", ⟨"", "100.64.0.1", "n1"⟩)])).err
      = some (.join [.errorf "(alias %s) Tailscale server \x27%s\x27 not found: %w"
          ["www", "n2"] none]) := by
  refine ⟨by decide, by decide, ?_⟩
  rfl

/-- C8, amended: the overall result of `run`, for any answers of the remote
API and any range orders, once the configuration and the device directory are
read. Every configured alias is attempted (one "Updating alias" event each)
and has one outcome. The update of an alias succeeds exactly when the zone is
resolved, the listing of its stored records ends without an error and its
batch is applied without an error. The failed counter is the number of aliases
whose update failed, the successful counter the number of those whose update
succeeded. The returned error is nil or the join of the recorded failures,
which are, alias by alias, one server-not-found failure for each server name
of the alias missing from the directory and then the update failure of the
alias if its update failed. So `run` returns no error exactly when no alias
failed to update and no configured server name is missing. -/
theorem run_result (cf : Cloudflare) (rg : Ranges) (cfg : Config)
    (devices : GoMap String ARecord) :
    (attempted (run cf rg (.ok cfg) (.ok devices)).log).Perm (cfg.Aliases.map Prod.fst) ∧
    ((aliasOutcomes cf rg devices (NewDNSManager cfg.ZoneName)
      (rg.aliases.order cfg.Aliases)).map fun o => (o.aliasName, o.servers)).Perm cfg.Aliases ∧
    (∀ o ∈ aliasOutcomes cf rg devices (NewDNSManager cfg.ZoneName)
        (rg.aliases.order cfg.Aliases),
      (o.updateErr = none ↔
        ∃ zoneID d1, o.mgr.getZone cf = (.ok zoneID, d1) ∧
          (cf.recordsList d1.calls zoneID o.aliasName).2 = none ∧
          cf.recordsBatch (d1.calls ++ [Call.recordsList zoneID o.aliasName])
            (batchParams zoneID o.aliasName
              (crud rg.afterSet rg.existingSet
                ((cf.recordsList d1.calls zoneID o.aliasName).1.map fun record =>
                  ({ Id := record.ID, Address := record.Content, TailscaleName := record.Name }
                    : ARecord))
                (o.servers.filterMap (GoMap.get? devices)) fun a => a.Address)) = none)) ∧
    (run cf rg (.ok cfg) (.ok devices)).failed
      = ((aliasOutcomes cf rg devices (NewDNSManager cfg.ZoneName)
          (rg.aliases.order cfg.Aliases)).filter fun o => o.updateErr.isSome).length ∧
    (run cf rg (.ok cfg) (.ok devices)).successful
      = ((aliasOutcomes cf rg devices (NewDNSManager cfg.ZoneName)
          (rg.aliases.order cfg.Aliases)).filter fun o => o.updateErr.isNone).length ∧
    GoError.joined (run cf rg (.ok cfg) (.ok devices)).err
      = (aliasOutcomes cf rg devices (NewDNSManager cfg.ZoneName)
          (rg.aliases.order cfg.Aliases)).flatMap (AliasOutcome.failures devices) ∧
    (run cf rg (.ok cfg) (.ok devices)).successful + (run cf rg (.ok cfg) (.ok devices)).failed
      = cfg.Aliases.length ∧
    ((GoError.joined (run cf rg (.ok cfg) (.ok devices)).err).filter
      GoError.isUpdateFailure).length = (run cf rg (.ok cfg) (.ok devices)).failed ∧
    ((GoError.joined (run cf rg (.ok cfg) (.ok devices)).err).filter
      GoError.isServerNotFound).length
        = (cfg.Aliases.map fun e => (missingServers devices e.2).length).sum ∧
    (∀ e ∈ GoError.joined (run cf rg (.ok cfg) (.ok devices)).err,
      e.isUpdateFailure = true ∨ e.isServerNotFound = true) ∧
    ((run cf rg (.ok cfg) (.ok devices)).err = none ∨
      (run cf rg (.ok cfg) (.ok devices)).err
        = some (.join (GoError.joined (run cf rg (.ok cfg) (.ok devices)).err))) ∧
    ((run cf rg (.ok cfg) (.ok devices)).err = none ↔
      (run cf rg (.ok cfg) (.ok devices)).failed = 0 ∧
        ∀ e ∈ cfg.Aliases, missingServers devices e.2 = []) := by
  obtain ⟨fs, h1, h2, h3, h4, h5, h6⟩ := foldl_runAlias_spec cf rg devices
    (rg.aliases.order cfg.Aliases)
    { failures := [], successful := 0, failed := 0, mgr := NewDNSManager cfg.ZoneName, log := [] }
  obtain ⟨o1, o2, o3⟩ := foldl_runAlias_outcomes cf rg devices
    (rg.aliases.order cfg.Aliases)
    { failures := [], successful := 0, failed := 0, mgr := NewDNSManager cfg.ZoneName, log := [] }
  simp only [List.nil_append, Nat.zero_add, attempted] at h1 h2 h5 h6 o1 o2 o3
  have hperm := rg.aliases.perm cfg.Aliases
  have hsum : ((rg.aliases.order cfg.Aliases).map fun e => (missingServers devices e.2).length).sum
      = (cfg.Aliases.map fun e => (missingServers devices e.2).length).sum :=
    (hperm.map _).sum_eq
  rw [hsum] at h3
  refine ⟨attempted_run cf rg cfg devices, ?_, ?_, ?_, ?_, ?_, ?_⟩
  · rw [aliasName_aliasOutcomes]
    exact hperm
  · intro o ho
    rw [updateErr_aliasOutcomes cf rg devices _ _ o ho]
    exact updateCloudflareRecord_eq_none_iff cf rg o.mgr o.aliasName _
  · simp only [run, o2]
  · simp only [run, o3]
  · simp only [run, joined_of_failures, o1]
  simp only [run, h1, joined_of_failures]
  refine ⟨?_, ?_, h3, h4, ?_, ?_⟩
  · rw [h5, hperm.length_eq]
  · rw [h2]
  · cases fs <;> simp
  · have hnil : fs = [] ↔ (fs.filter GoError.isUpdateFailure).length = 0 ∧
        (fs.filter GoError.isServerNotFound).length = 0 := by
      constructor
      · intro e; simp [e]
      · rintro ⟨e1, e2⟩
        apply List.eq_nil_iff_forall_not_mem.2
        intro x hx
        rcases h4 x hx with h | h
        · have : x ∈ fs.filter GoError.isUpdateFailure := List.mem_filter.2 ⟨hx, h⟩
          rw [List.length_eq_zero.1 e1] at this
          exact List.not_mem_nil x this
        · have : x ∈ fs.filter GoError.isServerNotFound := List.mem_filter.2 ⟨hx, h⟩
          rw [List.length_eq_zero.1 e2] at this
          exact List.not_mem_nil x this
    have hmiss : (cfg.Aliases.map fun e => (missingServers devices e.2).length).sum = 0 ↔
        ∀ e ∈ cfg.Aliases, missingServers devices e.2 = [] := by
      rw [sum_map_eq_zero_iff]
      exact forall_congr' fun e => forall_congr' fun _ => List.length_eq_zero
    rw [h2, ← hmiss, ← h3, ← hnil]
    cases fs <;> simp

/-- Witness of `run_result`: the zone is found and the batch of the one alias
is refused. The alias is counted as failed and its update failure is the
error returned. -/
theorem run_result_witness :
    (run ⟨fun _ _ => .ok ["zone1"], fun _ _ _ => ([], none), fun _ _ => some (.leaf "refused")⟩
      ⟨RangeOrder.insertion _, RangeOrder.insertion _, RangeOrder.insertion _⟩
      (.ok ⟨"example.com", [("www", ["n1"])]⟩)
      (.ok [("n1", ⟨"", "100.64.0.1", "n1"⟩)])).failed = 1 ∧
    (run ⟨fun _ _ => .ok ["zone1"], fun _ _ _ => ([], none), fun _ _ => some (.leaf "refused")⟩
      ⟨RangeOrder.insertion _, RangeOrder.insertion _, RangeOrder.insertion _⟩
      (.ok ⟨"example.com", [("www", ["n1"])]⟩)
      (.ok [("n1", ⟨"", "100.64.0.1", "n1"⟩)])).successful = 0 ∧
    GoError.joined
      (run ⟨fun _ _ => .ok ["zone1"], fun _ _ _ => ([], none), fun _ _ => some (.leaf "refused")⟩
        ⟨RangeOrder.insertion _, RangeOrder.insertion _, RangeOrder.insertion _⟩
        (.ok ⟨"example.com", [("www", ["n1"])]⟩)
        (.ok [("n1", ⟨"", "100.64.0.1", "n1"⟩)])).err
      = [.errorf "(alias %s) failed to update Cloudflare record: %w" ["www"]
          (some (.errorf "failed to update records for alias %s: %w" ["www"]
            (some (.leaf "refused"))))] :=
  have h := run_result
    ⟨fun _ _ => .ok ["zone1"], fun _ _ _ => ([], none), fun _ _ => some (.leaf "refused")⟩
    ⟨RangeOrder.insertion _, RangeOrder.insertion _, RangeOrder.insertion _⟩
    ⟨"example.com", [("www", ["n1"])]⟩ [("n1", ⟨"", "100.64.0.1", "n1"⟩)]
  ⟨h.2.2.2.1, h.2.2.2.2.1, h.2.2.2.2.2.1⟩

/-- C9: the zone cache. When `getZone` succeeds with a zone id, a call of
`getZone` at any later state of the same manager (after any further calls of
its methods, against any answers of the remote API) returns the same id and
leaves the state, request log included, as it is: no zone lookup is sent,
whatever the remote API would answer then. When `getZone` fails (the lookup
fails or finds no zone), the cache is unset afterwards. -/
theorem getZone_cache (cf later : Cloudflare) (d : DNSManager) :
    match d.getZone cf with
    | (.ok zoneID, d1) =>
      ∀ d2, DNSManager.Later d1 d2 → d2.getZone later = (.ok zoneID, d2)
    | (.error _, d1) => d1.zoneID = none := by
  have hcached : ∀ (d1 : DNSManager) (zoneID : String), d1.zoneID = some zoneID →
      ∀ d2, DNSManager.Later d1 d2 → d2.getZone later = (.ok zoneID, d2) :=
    fun d1 zoneID h d2 hl => getZone_of_cached later d2 zoneID (zoneID_of_later d1 d2 zoneID h hl)
  unfold DNSManager.getZone
  rcases hd : d.zoneID with _ | zoneID
  · rcases hz : cf.zonesList d.calls d.zoneName with err | ids
    · simp [hd]
    · cases ids with
      | nil => simp [hd]
      | cons zoneID ids => exact hcached _ zoneID rfl
  · exact hcached d zoneID hd

/-- Witness of `getZone_cache`: the zone is found, an alias is updated, the
zone disappears from the remote side, and `getZone` still returns the id
without a request. -/
theorem getZone_cache_witness :
    DNSManager.getZone ⟨fun _ _ => .ok [], fun _ _ _ => ([], none), fun _ _ => none⟩
      (DNSManager.UpdateAddressesByName
        ⟨fun _ _ => .ok ["zone1"], fun _ _ _ => ([], none), fun _ _ => none⟩
        ⟨RangeOrder.insertion _, RangeOrder.insertion _, RangeOrder.insertion _⟩
        ⟨"example.com", some "zone1", [Call.zonesList "example.com"]⟩ "www"
        [⟨"", "100.64.0.1", "n1"⟩]).2
      = (.ok "zone1",
        (DNSManager.UpdateAddressesByName
          ⟨fun _ _ => .ok ["zone1"], fun _ _ _ => ([], none), fun _ _ => none⟩
          ⟨RangeOrder.insertion _, RangeOrder.insertion _, RangeOrder.insertion _⟩
          ⟨"example.com", some "zone1", [Call.zonesList "example.com"]⟩ "www"
          [⟨"", "100.64.0.1", "n1"⟩]).2) :=
  getZone_cache ⟨fun _ _ => .ok ["zone1"], fun _ _ _ => ([], none), fun _ _ => none⟩
    ⟨fun _ _ => .ok [], fun _ _ _ => ([], none), fun _ _ => none⟩
    (NewDNSManager "example.com") _
    (DNSManager.Later.updateAddresses _ _ "www" [⟨"", "100.64.0.1", "n1"⟩]
      (DNSManager.Later.same _))

/-- C10, as stated, fails: every zone lookup finds no zone and two aliases are
configured. `run` does not abort: it logs the start of the update of both
aliases, and it sends the zone lookup twice, once for each alias. -/
theorem run_zone_not_found_counterexample :
    (run ⟨fun _ _ => .ok [], fun _ _ _ => ([], none), fun _ _ => none⟩
      ⟨RangeOrder.insertion _, RangeOrder.insertion _, RangeOrder.insertion _⟩
      (.ok ⟨"example.com", [("www", ["n1"]), ("api", ["n1"])]⟩)
      (.ok [("n1", ⟨"", "100.64.0.1", "n1"⟩)])).calls
      = [Call.zonesList "example.com", Call.zonesList "example.com"] ∧
    (run ⟨fun _ _ => .ok [], fun _ _ _ => ([], none), fun _ _ => none⟩
      ⟨RangeOrder.insertion _, RangeOrder.insertion _, RangeOrder.insertion _⟩
      (.ok ⟨"example.com", [("www", ["n1"]), ("api", ["n1"])]⟩)
      (.ok [("n1", ⟨"", "100.64.0.1", "n1"⟩)])).log
      = [LogEvent.updatingAlias "www" [⟨"", "100.64.0.1", "n1"⟩],
         LogEvent.updatingAlias "api" [⟨"", "100.64.0.1", "n1"⟩],
         LogEvent.aliasUpdateComplete 0 2] := by
  decide

/-- C10, amended: when every zone lookup finds no zone, `run` sends no record
listing and no batch; it does not abort but goes through every configured
alias, sending the zone lookup once for each alias (a failed lookup is not
cached). No alias succeeds, every alias is counted as failed, the returned
error holds for every alias the update failure whose root cause is
"zone not found", every update failure it holds is such a one, and it is not
nil when an alias is configured. -/
theorem run_zone_not_found (cf : Cloudflare) (rg : Ranges) (cfg : Config)
    (devices : GoMap String ARecord) (hz : ∀ calls name, cf.zonesList calls name = .ok []) :
    (run cf rg (.ok cfg) (.ok devices)).calls
      = List.replicate cfg.Aliases.length (Call.zonesList cfg.ZoneName) ∧
    (attempted (run cf rg (.ok cfg) (.ok devices)).log).Perm (cfg.Aliases.map Prod.fst) ∧
    (run cf rg (.ok cfg) (.ok devices)).successful = 0 ∧
    (run cf rg (.ok cfg) (.ok devices)).failed = cfg.Aliases.length ∧
    (∀ e ∈ cfg.Aliases, zoneNotFoundFailure cfg.ZoneName e.1
      ∈ GoError.joined (run cf rg (.ok cfg) (.ok devices)).err) ∧
    (∀ x ∈ GoError.joined (run cf rg (.ok cfg) (.ok devices)).err, x.isUpdateFailure = true →
      ∃ e ∈ cfg.Aliases, x = zoneNotFoundFailure cfg.ZoneName e.1) ∧
    (cfg.Aliases ≠ [] → (run cf rg (.ok cfg) (.ok devices)).err ≠ none) := by
  obtain ⟨h1, h2, h3, h4⟩ := foldl_runAlias_zone_not_found cf rg devices
    (rg.aliases.order cfg.Aliases)
    { failures := [], successful := 0, failed := 0, mgr := NewDNSManager cfg.ZoneName, log := [] }
    hz rfl
  have hperm := rg.aliases.perm cfg.Aliases
  have hatt := attempted_run cf rg cfg devices
  simp only [List.nil_append, Nat.zero_add, NewDNSManager, hperm.length_eq] at h1 h2 h3 h4
  refine ⟨?_, hatt, ?_, ?_, ?_, ?_, ?_⟩
  · simp only [run, NewDNSManager, h4]
  · simp only [run, NewDNSManager, h2]
  · simp only [run, NewDNSManager, h3]
  · intro e he
    simp only [run, NewDNSManager, h1, joined_of_failures]
    exact List.mem_flatMap.2 ⟨e, hperm.mem_iff.2 he, by simp⟩
  · intro x hx hu
    simp only [run, NewDNSManager, h1, joined_of_failures] at hx
    obtain ⟨e, he, hxe⟩ := List.mem_flatMap.1 hx
    refine ⟨e, hperm.mem_iff.1 he, ?_⟩
    rcases List.mem_append.1 hxe with h | h
    · rw [(isServerNotFound_of_mem_notFoundErrors _ _ _ x h).2] at hu
      exact absurd hu (by decide)
    · simpa using h
  · intro hne hnone
    simp only [run, NewDNSManager, h1] at hnone
    obtain ⟨e, es, hes⟩ := List.exists_cons_of_ne_nil
      (fun h => hne (List.Perm.eq_nil (h ▸ hperm.symm)) : rg.aliases.order cfg.Aliases ≠ [])
    rw [hes] at hnone
    simp at hnone

/-- Witness of `run_zone_not_found`: two aliases, no zone. -/
theorem run_zone_not_found_witness :
    (run ⟨fun _ _ => .ok [], fun _ _ _ => ([], none), fun _ _ => none⟩
      ⟨RangeOrder.reversed _, RangeOrder.insertion _, RangeOrder.insertion _⟩
      (.ok ⟨"example.org", [("@", ["n1"]), ("vpn", ["n2"])]⟩)
      (.ok [("n1", ⟨"", "100.64.0.1", "n1"⟩)])).failed = 2 :=
  (run_zone_not_found ⟨fun _ _ => .ok [], fun _ _ _ => ([], none), fun _ _ => none⟩
    ⟨RangeOrder.reversed _, RangeOrder.insertion _, RangeOrder.insertion _⟩
    ⟨"example.org", [("@", ["n1"]), ("vpn", ["n2"])]⟩
    [("n1", ⟨"", "100.64.0.1", "n1"⟩)] (fun _ _ => rfl)).2.2.2.1

end TailflareDNS
